import Mathlib

/-
Verification development for the drawtime timing-diagram library.

The development shallowly embeds the diagram data model (model.py), the
description-language parser (parse.py) and the geometric parts of the
renderer (render.py) as executable Lean definitions, and proves the frozen
claims about them.

Conventions of the embedding:
* Python floats are modelled as rationals (ℚ).  Rational arithmetic is
  expressed through the kernel-reducible wrappers qadd/qsub/qmul/qdiv/qneg
  below, each proven equal to the corresponding field operation, so that
  concrete runs of the embedded code can be evaluated by decide.
* Python exceptions are modelled as Except values.  TimingSyntaxError
  becomes PErr.syn (kind, line number, line text); the bare ValueError and
  TypeError raised by the model constructors become PErr.model.
* Python strings are processed as lists of characters, using the
  structurally recursive helpers below (the corresponding core String
  functions do not reduce inside the kernel).
-/

namespace Drawtime

/-! ### Kernel-reducible rational arithmetic -/

/-- Addition on ℚ computed directly on numerators and denominators. -/
def qadd (a b : ℚ) : ℚ := Rat.divInt (a.num * (b.den : ℤ) + b.num * (a.den : ℤ)) ((a.den : ℤ) * (b.den : ℤ))

/-- Subtraction on ℚ computed directly on numerators and denominators. -/
def qsub (a b : ℚ) : ℚ := Rat.divInt (a.num * (b.den : ℤ) - b.num * (a.den : ℤ)) ((a.den : ℤ) * (b.den : ℤ))

/-- Multiplication on ℚ computed directly on numerators and denominators. -/
def qmul (a b : ℚ) : ℚ := Rat.divInt (a.num * b.num) ((a.den : ℤ) * (b.den : ℤ))

/-- Division on ℚ computed directly on numerators and denominators. -/
def qdiv (a b : ℚ) : ℚ := Rat.divInt (a.num * (b.den : ℤ)) ((a.den : ℤ) * b.num)

/-- Negation on ℚ computed directly on the numerator. -/
def qneg (a : ℚ) : ℚ := Rat.divInt (-a.num) (a.den : ℤ)

/-- The integer n as a rational, in kernel-reducible form. -/
def intQ (n : ℤ) : ℚ := Rat.divInt n 1

/-- Floor of a rational as an integer (kernel-reducible form of Int.floor). -/
def pyfloor (q : ℚ) : ℤ := q.num / (q.den : ℤ)

/-- Ceiling of a rational as an integer. -/
def pyceil (q : ℚ) : ℤ := -(pyfloor (qneg q))

/-- Python's float modulo `a % b`, which is floor-based: `a - b * floor(a / b)`.
(For `b = 0` Python raises ZeroDivisionError; every use below is guarded by
hypotheses that keep `b` positive.) -/
def pyfmod (a b : ℚ) : ℚ := qsub a (qmul b (intQ (pyfloor (qdiv a b))))

/-! ### Character-list string helpers

Python's str methods used by parse.py, re-implemented structurally over
List Char so that they reduce in the kernel.  `strip` removes ASCII
whitespace (the unicode whitespace also stripped by Python does not occur
in the language's inputs of interest). -/

/-- Left trim: drop leading whitespace. -/
def trimLeftC (l : List Char) : List Char := l.dropWhile Char.isWhitespace

/-- Python str.strip: drop leading and trailing whitespace. -/
def trimC (l : List Char) : List Char := ((trimLeftC l).reverse.dropWhile Char.isWhitespace).reverse

/-- Whether pat is an initial segment of s. -/
def headMatches : List Char → List Char → Bool
  | [], _ => true
  | _ :: _, [] => false
  | a :: as, b :: bs => a = b && headMatches as bs

/-- Split s at the first occurrence of delim, returning the parts before and
after it, or none if delim does not occur (Python str.partition). -/
def splitFirstC (delim : List Char) : List Char → Option (List Char × List Char)
  | [] => Option.none
  | c :: cs =>
    if headMatches delim (c :: cs) then some ([], (c :: cs).drop delim.length)
    else
      match splitFirstC delim cs with
      | some (before, after) => some (c :: before, after)
      | Option.none => Option.none

/-- Whether delim occurs in s (Python `delim in s`). -/
def containsC (l delim : List Char) : Bool := (splitFirstC delim l).isSome

/-- Python str.splitlines restricted to the newline character, keeping the
convention of str.split("\n"); the possible trailing empty piece is dropped
later by the blank-line filter, so numbering is unaffected. -/
def splitLinesC : List Char → List (List Char)
  | [] => [[]]
  | c :: cs =>
    if c = '\n' then [] :: splitLinesC cs
    else
      match splitLinesC cs with
      | h :: t => (c :: h) :: t
      | [] => [[c]]

/-- Python str.split(None, 1): skip leading whitespace, take the first
whitespace-delimited token, then return the remainder after the following
whitespace run (at most two pieces). -/
def splitWs1 (l : List Char) : List (List Char) :=
  let t := trimLeftC l
  if t.isEmpty then []
  else
    let tok := t.takeWhile (fun c => !c.isWhitespace)
    let rest := trimLeftC (t.drop tok.length)
    if rest.isEmpty then [tok] else [tok, rest]

/-! ### Number parsing (Python int() and float())

Python's int() and float() accept underscores between digits and (for
float) the tokens inf/infinity/nan; those inputs are not modelled (they
fall to the failure case here).  The standard decimal forms are
modelled exactly: optional sign, digits, optional fraction, optional
exponent; float allows "5.", ".5" and "5e2". -/

/-- The natural number denoted by a list of decimal digit characters. -/
def charsToNat (l : List Char) : ℕ := l.foldl (fun a c => a * 10 + (c.toNat - 48)) 0

/-- Parse a nonempty all-digit character list. -/
def parseDigits (l : List Char) : Option ℕ :=
  if !l.isEmpty && l.all Char.isDigit then some (charsToNat l) else Option.none

/-- Python int(raw): strip, optional sign, decimal digits. -/
def parsePyInt (l : List Char) : Option ℤ :=
  match trimC l with
  | '+' :: r => (parseDigits r).map (fun n => (n : ℤ))
  | '-' :: r => (parseDigits r).map (fun n => -(n : ℤ))
  | r => (parseDigits r).map (fun n => (n : ℤ))

/-- Signed decimal exponent of a float literal. -/
def parseSignedDigits (l : List Char) : Option ℤ :=
  match l with
  | '+' :: r => (parseDigits r).map (fun n => (n : ℤ))
  | '-' :: r => (parseDigits r).map (fun n => -(n : ℤ))
  | r => (parseDigits r).map (fun n => (n : ℤ))

/-- Assemble a float value sign * digits * 10^e / 10^fracLen as a rational. -/
def floatVal (sign : ℤ) (digits : ℕ) (fracLen : ℕ) (e : ℤ) : ℚ :=
  Rat.divInt (sign * (digits : ℤ) * (10 : ℤ) ^ e.toNat) ((10 : ℤ) ^ (fracLen + (-e).toNat))

/-- Parse the part of a float literal after the mantissa: empty or an
e/E exponent. -/
def parseFloatRest (sign : ℤ) (digits : ℕ) (fracLen : ℕ) (rest : List Char) : Option ℚ :=
  match rest with
  | [] => some (floatVal sign digits fracLen 0)
  | 'e' :: r => (parseSignedDigits r).map (floatVal sign digits fracLen)
  | 'E' :: r => (parseSignedDigits r).map (floatVal sign digits fracLen)
  | _ => Option.none

/-- Parse an unsigned float mantissa followed by an optional exponent. -/
def parseFloatBody (l : List Char) : Option ℚ :=
  let ip := l.takeWhile Char.isDigit
  let r1 := l.drop ip.length
  match r1 with
  | '.' :: r2 =>
    let fp := r2.takeWhile Char.isDigit
    let r3 := r2.drop fp.length
    if ip.isEmpty && fp.isEmpty then Option.none
    else parseFloatRest 1 (charsToNat (ip ++ fp)) fp.length r3
  | _ => if ip.isEmpty then Option.none else parseFloatRest 1 (charsToNat ip) 0 r1

/-- Python float(raw): strip, optional sign, mantissa, optional exponent. -/
def parsePyFloat (l : List Char) : Option ℚ :=
  match trimC l with
  | '+' :: r => parseFloatBody r
  | '-' :: r => (parseFloatBody r).map qneg
  | r => parseFloatBody r

/-! ### The diagram model (model.py) -/

/-- A Python value held by a signal: the ints 0/1, a string, None
(floating, written Z in the language) or the UNKNOWN sentinel (written ?).
The int constructor also represents out-of-domain values such as 42 that
can be passed when constructing signals directly. -/
inductive PyVal
  | int (n : ℤ)
  | str (s : String)
  | pynone
  | unknown
deriving DecidableEq

/-- Errors raised by the model constructors (model.py) as bare ValueError
or TypeError, without line information. -/
inductive ModelErr
  | lineStartInvalid
  | lineChangeValueInvalid
  | lineChangeDupe
  | busChangeDupe
  | clockDutyInvalid
  | marginInvalid
  | invalidSignalType
deriving DecidableEq

/-- model.Line: a named line signal; start and the ordered change list. -/
structure Line where
  name : String
  start : PyVal
  changes : List (ℚ × PyVal)
deriving DecidableEq

/-- model.Bus: a named bus signal; start and the ordered change list. -/
structure Bus where
  name : String
  start : PyVal
  changes : List (ℚ × PyVal)
deriving DecidableEq

/-- model.Clock: a named clock signal. -/
structure Clock where
  name : String
  offset : ℚ
  length : ℚ
  duty : ℚ
deriving DecidableEq

/-- A signal of a diagram: a Line, Bus or Clock. -/
inductive Signal
  | line (l : Line)
  | bus (b : Bus)
  | clock (c : Clock)
deriving DecidableEq

/-- model.TimingDiagram: global style and timing settings plus the ordered
signal list.  Python's start/end/step/delay are integers whenever set by
the parser (the time block parses ints), so they are ℤ here; the style
dimensions are ℚ since the margin validation divides them.  `startT` and
`endT` stand for the Python attributes start and end (end is reserved in
Lean). -/
structure TimingDiagram where
  width : ℚ
  height : ℚ
  margin : ℚ
  fontSize : ℚ
  fontFamily : String
  background : ℤ
  foreground : ℤ
  startT : ℤ
  endT : ℤ
  step : Option ℤ
  delay : ℤ
  signals : List Signal
deriving DecidableEq

/-- TimingDiagram.__init__ (model.py lines 30-57): rejects a margin
greater than half the width or half the height, then stores everything. -/
def TimingDiagram.init (width height margin fontSize : ℚ) (fontFamily : String)
    (background foreground : ℤ) (startT endT : ℤ) (step : Option ℤ) (delay : ℤ)
    (signals : List Signal) : Except ModelErr TimingDiagram :=
  if margin > qdiv width 2 ∨ margin > qdiv height 2 then Except.error ModelErr.marginInvalid
  else Except.ok ⟨width, height, margin, fontSize, fontFamily, background, foreground,
    startT, endT, step, delay, signals⟩

/-- The diagram produced by model.TimingDiagram() with all defaults. -/
def defaultDiagram : TimingDiagram :=
  ⟨800, 600, 20, 12, "Times New Roman", 0xffffff, 0x000000, 0, 100, Option.none, 10, []⟩

/-- The loop of Line.__init__ over the sorted changes: reject a value
outside {0, 1, None}, then reject a duplicate time, else append.  (The
time-is-a-number check of the source is a tautology here since times are
typed as ℚ.) -/
def buildLineChanges (acc : List (ℚ × PyVal)) : List (ℚ × PyVal) → Except ModelErr (List (ℚ × PyVal))
  | [] => Except.ok acc
  | (t, v) :: rest =>
    if v = PyVal.int 0 ∨ v = PyVal.int 1 ∨ v = PyVal.pynone then
      if (acc.map Prod.fst).contains t then Except.error ModelErr.lineChangeDupe
      else buildLineChanges (acc ++ [(t, v)]) rest
    else Except.error ModelErr.lineChangeValueInvalid

/-- Line.__init__ (model.py lines 70-89): validate the start value, then
iterate the changes sorted by time, validating values and rejecting
duplicate times.  Python's sorted() on dict items is a stable sort by key
(keys are distinct in a dict, so values are never compared). -/
def Line.init (name : String) (start : PyVal) (changes : List (ℚ × PyVal)) : Except ModelErr Line :=
  if start = PyVal.int 0 ∨ start = PyVal.int 1 ∨ start = PyVal.unknown ∨ start = PyVal.pynone then
    match buildLineChanges [] (List.insertionSort (fun p q => p.1 ≤ q.1) changes) with
    | Except.ok built => Except.ok ⟨name, start, built⟩
    | Except.error e => Except.error e
  else Except.error ModelErr.lineStartInvalid

/-- The loop of Bus.__init__ over the sorted changes: values are not
validated; only a duplicate time is rejected. -/
def buildBusChanges (acc : List (ℚ × PyVal)) : List (ℚ × PyVal) → Except ModelErr (List (ℚ × PyVal))
  | [] => Except.ok acc
  | (t, v) :: rest =>
    if (acc.map Prod.fst).contains t then Except.error ModelErr.busChangeDupe
    else buildBusChanges (acc ++ [(t, v)]) rest

/-- Bus.__init__ (model.py lines 102-113): store name and start without
validation, then iterate the sorted changes rejecting duplicate times. -/
def Bus.init (name : String) (start : PyVal) (changes : List (ℚ × PyVal)) : Except ModelErr Bus :=
  match buildBusChanges [] (List.insertionSort (fun p q => p.1 ≤ q.1) changes) with
  | Except.ok built => Except.ok ⟨name, start, built⟩
  | Except.error e => Except.error e

/-- Clock.__init__ (model.py lines 123-129): reject a duty cycle outside
the open interval (0, 1), raising a bare ValueError. -/
def Clock.init (name : String) (offset length duty : ℚ) : Except ModelErr Clock :=
  if 0 < duty ∧ duty < 1 then Except.ok ⟨name, offset, length, duty⟩
  else Except.error ModelErr.clockDutyInvalid

/-! ### The parser (parse.py) -/

/-- The keys of the ERRORS table of parse.py: the kind of a syntax error. -/
inductive ErrKind
  | time_args
  | style_args
  | unknown_block
  | orphan_colon
  | orphan_line
  | signal_args
  | malformed_line
  | time_prop
  | style_prop
  | signal_prop
  | bad_float
  | bad_int
  | bad_color
  | clock_change
  | line_value
  | bus_value
  | line_unknown
  | change_dupe
  | missing_prop
  | empty_block
deriving DecidableEq

/-- An error escaping parseTimingDescription: a TimingSyntaxError carrying
kind, 1-based line number and trimmed line text; or a bare
model-constructor error without line information; or the bare ValueError
that ast.literal_eval raises on a bus value parsing as a non-literal
expression (parse.py line 324), which the except clause at line 328 names
only SyntaxError and therefore does not catch. -/
inductive PErr
  | syn (kind : ErrKind) (lineNumber : ℕ) (lineText : String)
  | model (e : ModelErr)
  | literalEval
deriving DecidableEq

instance {ε α : Type} [DecidableEq ε] [DecidableEq α] : DecidableEq (Except ε α) := fun a b =>
  match a, b with
  | Except.ok x, Except.ok y =>
    if h : x = y then isTrue (by rw [h]) else isFalse (fun c => by cases c; exact h rfl)
  | Except.ok _, Except.error _ => isFalse (fun c => by cases c)
  | Except.error _, Except.ok _ => isFalse (fun c => by cases c)
  | Except.error x, Except.error y =>
    if h : x = y then isTrue (by rw [h]) else isFalse (fun c => by cases c; exact h rfl)

/-- A numbered line: 1-based line number and trimmed text. -/
abbrev NLine := ℕ × List Char

/-- The recognized signal block kinds ('clock', 'line', 'bus').  The source
stores the kind as the matched keyword string; only these three ever reach
the block list, so an enumeration is used. -/
inductive SigKind
  | clock
  | line
  | bus
deriving DecidableEq

/-- A signal block collected by _exractBlocks: kind, name, body lines. -/
structure SigBlock where
  kind : SigKind
  name : String
  slines : List NLine
deriving DecidableEq

/-- The output of _exractBlocks: the (shared) time and style line lists and
the ordered signal blocks. -/
structure Blocks where
  timeLines : List NLine
  styleLines : List NLine
  signalBlocks : List SigBlock
deriving DecidableEq

/-- The current_block pointer of _exractBlocks: it aliases one of the three
collections (or none before the first header). -/
inductive Cursor
  | outside
  | inTime
  | inStyle
  | inSignal
deriving DecidableEq

/-- Python current_block == []: value equality of the aliased list with the
empty list (False while current_block is still None). -/
def currentEmpty (b : Blocks) (cur : Cursor) : Bool :=
  match cur with
  | Cursor.outside => false
  | Cursor.inTime => b.timeLines.isEmpty
  | Cursor.inStyle => b.styleLines.isEmpty
  | Cursor.inSignal =>
    match b.signalBlocks.getLast? with
    | some sb => sb.slines.isEmpty
    | Option.none => false

/-- current_block.append(numbered_line): append to the aliased list. -/
def appendBody (b : Blocks) (cur : Cursor) (nl : NLine) : Blocks :=
  match cur with
  | Cursor.outside => b
  | Cursor.inTime => { b with timeLines := b.timeLines ++ [nl] }
  | Cursor.inStyle => { b with styleLines := b.styleLines ++ [nl] }
  | Cursor.inSignal =>
    match b.signalBlocks.getLast? with
    | some sb => { b with signalBlocks := b.signalBlocks.dropLast ++ [⟨sb.kind, sb.name, sb.slines ++ [nl]⟩] }
    | Option.none => b

/-- One iteration of the _exractBlocks loop (parse.py lines 121-148) on one
numbered line: handle a block header (empty-previous-block check first,
then the orphan colon check, then keyword dispatch) or append a body line. -/
def extractStep (b : Blocks) (cur : Cursor) (nl : NLine) : Except PErr (Blocks × Cursor) :=
  let (n, l) := nl
  if l.getLast? = some ':' then
    if currentEmpty b cur then Except.error (PErr.syn ErrKind.empty_block n (String.mk l))
    else if l.length = 1 then Except.error (PErr.syn ErrKind.orphan_colon n (String.mk l))
    else
      match splitWs1 l.dropLast with
      | [] => Except.error (PErr.syn ErrKind.unknown_block n (String.mk l))
      | blockType :: blockArgs =>
        if blockType = "time".toList then
          if blockArgs.isEmpty then Except.ok (b, Cursor.inTime)
          else Except.error (PErr.syn ErrKind.time_args n (String.mk l))
        else if blockType = "style".toList then
          if blockArgs.isEmpty then Except.ok (b, Cursor.inStyle)
          else Except.error (PErr.syn ErrKind.style_args n (String.mk l))
        else if blockType = "clock".toList ∨ blockType = "line".toList ∨ blockType = "bus".toList then
          match blockArgs with
          | [] => Except.error (PErr.syn ErrKind.signal_args n (String.mk l))
          | arg :: _ =>
            let kind := if blockType = "clock".toList then SigKind.clock
              else if blockType = "line".toList then SigKind.line else SigKind.bus
            Except.ok ({ b with signalBlocks := b.signalBlocks ++ [⟨kind, String.mk arg, []⟩] }, Cursor.inSignal)
        else Except.error (PErr.syn ErrKind.unknown_block n (String.mk l))
  else
    if cur = Cursor.outside then Except.error (PErr.syn ErrKind.orphan_line n (String.mk l))
    else Except.ok (appendBody b cur nl, cur)

/-- The _exractBlocks loop over all numbered lines. -/
def extractGo (b : Blocks) (cur : Cursor) : List NLine → Except PErr (Blocks × Cursor)
  | [] => Except.ok (b, cur)
  | nl :: rest =>
    match extractStep b cur nl with
    | Except.ok (b2, cur2) => extractGo b2 cur2 rest
    | Except.error e => Except.error e

/-- _exractBlocks (parse.py lines 100-153): group the numbered lines into
blocks, with a final empty-current-block check against the last line. -/
def extractBlocks (ls : List NLine) : Except PErr Blocks :=
  match extractGo ⟨[], [], []⟩ Cursor.outside ls with
  | Except.error e => Except.error e
  | Except.ok (b, cur) =>
    if currentEmpty b cur then
      let (n, l) := ls.getLast?.getD (0, [])
      Except.error (PErr.syn ErrKind.empty_block n (String.mk l))
    else Except.ok b

/-- _splitLine (parse.py lines 231-247): choose the delimiter ('->' only
when allowed and present, else '='), fail if absent, and return the
stripped partition parts (left, delimiter, right). -/
def splitLineC (n : ℕ) (l : List Char) (allowChange : Bool) : Except PErr (List Char × List Char × List Char) :=
  let delim := if allowChange && containsC l ['-', '>'] then ['-', '>'] else ['=']
  match splitFirstC delim l with
  | some (before, after) => Except.ok (trimC before, delim, trimC after)
  | Option.none => Except.error (PErr.syn ErrKind.malformed_line n (String.mk l))

/-- The COLOR_REGEX check: exactly six hexadecimal digits, either case. -/
def isColorC (l : List Char) : Bool :=
  l.length = 6 && l.all (fun c => c.isDigit || ('a' ≤ c && c ≤ 'f') || ('A' ≤ c && c ≤ 'F'))

/-- Value of one hexadecimal digit character. -/
def hexDigitVal (c : Char) : ℕ :=
  if c.isDigit then c.toNat - 48
  else if 'a' ≤ c ∧ c ≤ 'f' then c.toNat - 87
  else c.toNat - 55

/-- Python int(value, 16) on a validated color string. -/
def hexToInt (l : List Char) : ℤ := (l.foldl (fun a c => a * 16 + hexDigitVal c) 0 : ℕ)

/-- One style-block line (parse.py lines 170-183): split on '=', dispatch
on the property name (unknown names are a style_prop error), parsing
numbers as ints and colors against the hex pattern, and assign the value
onto the diagram. -/
def styleStep (d : TimingDiagram) (nl : NLine) : Except PErr TimingDiagram :=
  let (n, l) := nl
  match splitLineC n l false with
  | Except.error e => Except.error e
  | Except.ok (property, _, value) =>
    if property = "width".toList then
      match parsePyInt value with
      | some v => Except.ok { d with width := intQ v }
      | Option.none => Except.error (PErr.syn ErrKind.bad_int n (String.mk l))
    else if property = "height".toList then
      match parsePyInt value with
      | some v => Except.ok { d with height := intQ v }
      | Option.none => Except.error (PErr.syn ErrKind.bad_int n (String.mk l))
    else if property = "margin".toList then
      match parsePyInt value with
      | some v => Except.ok { d with margin := intQ v }
      | Option.none => Except.error (PErr.syn ErrKind.bad_int n (String.mk l))
    else if property = "font_size".toList then
      match parsePyInt value with
      | some v => Except.ok { d with fontSize := intQ v }
      | Option.none => Except.error (PErr.syn ErrKind.bad_int n (String.mk l))
    else if property = "font_family".toList then
      Except.ok { d with fontFamily := String.mk value }
    else if property = "background".toList then
      if isColorC value then Except.ok { d with background := hexToInt value }
      else Except.error (PErr.syn ErrKind.bad_color n (String.mk l))
    else if property = "foreground".toList then
      if isColorC value then Except.ok { d with foreground := hexToInt value }
      else Except.error (PErr.syn ErrKind.bad_color n (String.mk l))
    else Except.error (PErr.syn ErrKind.style_prop n (String.mk l))

/-- The style-block loop of _parseBlocks. -/
def styleGo (d : TimingDiagram) : List NLine → Except PErr TimingDiagram
  | [] => Except.ok d
  | nl :: rest =>
    match styleStep d nl with
    | Except.ok d2 => styleGo d2 rest
    | Except.error e => Except.error e

/-- One time-block line (parse.py lines 185-189): split on '=', require a
known time property, parse the value as an int and assign it. -/
def timeStep (d : TimingDiagram) (nl : NLine) : Except PErr TimingDiagram :=
  let (n, l) := nl
  match splitLineC n l false with
  | Except.error e => Except.error e
  | Except.ok (property, _, value) =>
    if property = "start".toList ∨ property = "end".toList ∨ property = "step".toList ∨
        property = "delay".toList then
      match parsePyInt value with
      | some v =>
        if property = "start".toList then Except.ok { d with startT := v }
        else if property = "end".toList then Except.ok { d with endT := v }
        else if property = "step".toList then Except.ok { d with step := some v }
        else Except.ok { d with delay := v }
      | Option.none => Except.error (PErr.syn ErrKind.bad_int n (String.mk l))
    else Except.error (PErr.syn ErrKind.time_prop n (String.mk l))

/-- The time-block loop of _parseBlocks. -/
def timeGo (d : TimingDiagram) : List NLine → Except PErr TimingDiagram
  | [] => Except.ok d
  | nl :: rest =>
    match timeStep d nl with
    | Except.ok d2 => timeGo d2 rest
    | Except.error e => Except.error e

/-- SIGNAL_PROPERTIES (parse.py lines 56-60): the property names allowed in
each kind of signal block. -/
def signalPropertiesOf (k : SigKind) : List (List Char) :=
  match k with
  | SigKind.clock => ["length".toList, "offset".toList, "duty".toList]
  | SigKind.line => ["start".toList]
  | SigKind.bus => ["start".toList]

/-! #### ast.literal_eval on bus value tokens

The bus branch of _parseSignalValue calls ast.literal_eval and catches
only SyntaxError.  literal_eval itself has three outcomes on a parsed
expression: a string constant (the accepted case), some other literal
(rejected by the isinstance check as bus_value), or a ValueError
("malformed node or string") on any node outside its literal fragment -
names, general operators, calls, subscripts, attributes - and that
ValueError is not caught, so it escapes parsing bare.  The classifier
below reproduces those outcomes over Python's expression syntax for
string literals (with escapes, r/u/b/f prefixes and implicit adjacent
concatenation), signed decimal/hex/octal/binary numbers with imaginary
suffix, identifiers, additive and general binary operators, calls,
subscripts, attributes, list/tuple/set/dict displays and top-level comma
tuples.  Constructs outside this grammar (conditional expressions,
lambdas, comprehensions, slices, starred and keyword arguments, numeric
underscores) are reported as SyntaxError; for such exotic tokens only the
choice between the two rejection routes (caught bus_value versus escaping
ValueError) is approximated - accepted values are never affected. -/

/-- The four outcomes of ast.literal_eval on a bus value token: a string
constant, a non-string literal, a SyntaxError (the only exception the
source catches), or the escaping ValueError on a non-literal expression. -/
inductive LitResult
  | strLit (s : String)
  | nonStr
  | synErr
  | valErr
deriving DecidableEq

/-- A Python escape sequence inside a non-raw string literal: the common
single-character escapes are translated; an unknown escape keeps the
backslash and the character, as in Python. -/
def escChar (c : Char) : List Char :=
  if c = 'n' then ['\n']
  else if c = 't' then ['\t']
  else if c = 'r' then ['\r']
  else if c = '\\' then ['\\']
  else if c = '\'' then ['\'']
  else if c = '"' then ['"']
  else if c = '0' then [Char.ofNat 0]
  else ['\\', c]

/-- Scan a Python string literal body after its opening quote: consume up
to the matching unescaped quote, translating escapes (kept verbatim in a
raw literal), and return the content and the input following the closing
quote; a missing closing quote is a SyntaxError. -/
def scanPyStr (raw : Bool) (q : Char) : List Char → Option (List Char × List Char)
  | [] => Option.none
  | c :: rest =>
    if c = q then some ([], rest)
    else if c = '\\' then
      match rest with
      | [] => Option.none
      | e :: rest2 =>
        match scanPyStr raw q rest2 with
        | Option.none => Option.none
        | some (s, r) => some ((if raw then ['\\', e] else escChar e) ++ s, r)
    else
      match scanPyStr raw q rest with
      | Option.none => Option.none
      | some (s, r) => some (c :: s, r)

/-- An identifier character after the first: letters, digits, underscore. -/
def isIdentChar (c : Char) : Bool := c.isAlpha || c.isDigit || c = '_'

/-- Scan a Python identifier: a letter or underscore followed by letters,
digits and underscores. -/
def scanIdent (l : List Char) : Option (List Char × List Char) :=
  match l with
  | c :: rest =>
    if c.isAlpha || c = '_' then
      let p := rest.span isIdentChar
      some (c :: p.1, p.2)
    else Option.none
  | [] => Option.none

/-- An optional imaginary suffix j/J after a decimal number. -/
def scanJ (l : List Char) : Bool × List Char :=
  match l with
  | j :: r => if j = 'j' ∨ j = 'J' then (true, r) else (false, j :: r)
  | [] => (false, [])

/-- An optional exponent part and imaginary suffix after the mantissa of a
decimal number. -/
def scanNumTail (l : List Char) : Option (Bool × List Char) :=
  match l with
  | e :: r1 =>
    if e = 'e' ∨ e = 'E' then
      match r1 with
      | s :: r2 =>
        if s = '+' ∨ s = '-' then
          let p := r2.span Char.isDigit
          if p.1.isEmpty then Option.none else some (scanJ p.2)
        else
          let p := r1.span Char.isDigit
          if p.1.isEmpty then Option.none else some (scanJ p.2)
      | [] => Option.none
    else some (scanJ (e :: r1))
  | [] => some (false, [])

/-- A decimal integer or float literal: digits with an optional fraction,
exponent and imaginary suffix; the Bool reports an imaginary constant. -/
def scanDecNumber (l : List Char) : Option (Bool × List Char) :=
  let ip := l.span Char.isDigit
  match ip.2 with
  | '.' :: r2 =>
    let fp := r2.span Char.isDigit
    if ip.1.isEmpty ∧ fp.1.isEmpty then Option.none
    else scanNumTail fp.2
  | _ =>
    if ip.1.isEmpty then Option.none
    else scanNumTail ip.2

/-- A Python number literal: a hex/octal/binary integer or a decimal
int/float with optional imaginary suffix. -/
def scanNumber (l : List Char) : Option (Bool × List Char) :=
  match l with
  | '0' :: c :: rest =>
    if c = 'x' ∨ c = 'X' then
      let p := rest.span (fun ch => ch.isDigit || ('a' ≤ ch && ch ≤ 'f') || ('A' ≤ ch && ch ≤ 'F'))
      if p.1.isEmpty then Option.none else some (false, p.2)
    else if c = 'o' ∨ c = 'O' then
      let p := rest.span (fun ch => ('0' ≤ ch && ch ≤ '7'))
      if p.1.isEmpty then Option.none else some (false, p.2)
    else if c = 'b' ∨ c = 'B' then
      let p := rest.span (fun ch => (ch = '0' || ch = '1'))
      if p.1.isEmpty then Option.none else some (false, p.2)
    else scanDecNumber l
  | _ => scanDecNumber l

/-- Summary of a parsed Python expression as literal_eval's conversion
sees it: a string constant, a plain number constant (the Bool marks an
imaginary constant), a number with exactly one arithmetic sign applied,
some other convertible literal, or an expression whose conversion raises
the escaping ValueError (names, general operators, calls, subscripts,
attributes). -/
inductive PyCls
  | strS (s : String)
  | numS (isComplex : Bool)
  | signedNumS (isComplex : Bool)
  | litS
  | badS

/-- Whether conversion of the summarised expression succeeds. -/
def pyClsOk : PyCls → Bool
  | PyCls.badS => false
  | _ => true

/-- The effect of a prefix sign chain (plus/minus signs, possibly a
bitwise invert) on an operand: a single plus or minus on a plain number
constant stays convertible; anything else is a malformed node. -/
def applySigns (sc : ℕ) (inv : Bool) (e : PyCls) : PyCls :=
  if inv then PyCls.badS
  else if sc = 0 then e
  else if sc = 1 then
    match e with
    | PyCls.numS c => PyCls.signedNumS c
    | _ => PyCls.badS
  else PyCls.badS

/-- The effect of a binary plus/minus: convertible only in the complex
form accepted by literal_eval's BinOp case - a real int/float, possibly
signed, combined with a plain imaginary constant. -/
def combineAdd (a b : PyCls) : PyCls :=
  match b with
  | PyCls.numS true =>
    match a with
    | PyCls.numS false => PyCls.litS
    | PyCls.signedNumS false => PyCls.litS
    | _ => PyCls.badS
  | _ => PyCls.badS

/-- An identifier as an atom: True/False/None are literal constants;
lambda and not head constructs outside the modelled grammar; any other
identifier is a Name, whose conversion raises the escaping ValueError. -/
def identCls (w : List Char) (r : List Char) : Option (PyCls × List Char) :=
  if w = "True".toList ∨ w = "False".toList ∨ w = "None".toList then some (PyCls.litS, r)
  else if w = "lambda".toList ∨ w = "not".toList then Option.none
  else some (PyCls.badS, r)

/-- The summary of a bracketed element list at its closing bracket: a
parenthesised single expression without a trailing comma is that
expression itself; otherwise a display, a literal exactly when every
element converts. -/
def elemsCls (close : Char) (firstE : Option PyCls) (count : ℕ) (sawComma : Bool)
    (allLit : Bool) : PyCls :=
  if close = ')' ∧ count = 1 ∧ ¬sawComma then firstE.getD PyCls.litS
  else if allLit then PyCls.litS else PyCls.badS

/-- A non-additive binary operator continuation after a parsed item: the
two-character and one-character operators and the keyword operators of
Python expressions.  The resulting expression parses, but its conversion
raises the escaping ValueError. -/
def scanOp (l : List Char) : Option (List Char) :=
  match l with
  | '*' :: '*' :: r => some r
  | '/' :: '/' :: r => some r
  | '<' :: '<' :: r => some r
  | '>' :: '>' :: r => some r
  | '<' :: '=' :: r => some r
  | '>' :: '=' :: r => some r
  | '=' :: '=' :: r => some r
  | '!' :: '=' :: r => some r
  | '*' :: r => some r
  | '/' :: r => some r
  | '%' :: r => some r
  | '@' :: r => some r
  | '&' :: r => some r
  | '|' :: r => some r
  | '^' :: r => some r
  | '<' :: r => some r
  | '>' :: r => some r
  | _ =>
    match scanIdent l with
    | some (w, r) =>
      if w = "and".toList ∨ w = "or".toList ∨ w = "in".toList ∨ w = "is".toList ∨
          w = "not".toList then some r
      else Option.none
    | Option.none => Option.none

/-- The entry points of the expression parser: a full additive/operator
expression, a sign-prefixed item, an atom, a string-concatenation chain,
the operator tail after an item, the postfix (call, subscript, attribute)
tail after an atom, a bracketed element list, a braced set or dict body,
and the tail of a top-level comma tuple. -/
inductive PMode
  | expr
  | item (signs : ℕ) (inv : Bool)
  | atom
  | strChain (acc : String)
  | binTail (acc : PyCls)
  | postTail (acc : PyCls)
  | elems (close : Char) (firstE : Option PyCls) (count : ℕ) (sawComma : Bool) (allLit : Bool)
  | braced (isDict : Option Bool) (count : ℕ) (allLit : Bool)
  | tupleTail (allLit : Bool)

/-- The recursive-descent parser behind the literal_eval classifier, one
function over an explicit fuel (decremented at every nested parse, so that
the recursion is structural; the top-level call supplies ample fuel).
Each mode consumes a prefix of the input and returns its summary and the
remaining input; Option.none is a SyntaxError. -/
def pyParse : ℕ → PMode → List Char → Option (PyCls × List Char)
  | 0, _, _ => Option.none
  | fuel + 1, PMode.expr, l =>
    (match pyParse fuel (PMode.item 0 false) l with
     | Option.none => Option.none
     | some (e, r) => pyParse fuel (PMode.binTail e) (trimLeftC r))
  | fuel + 1, PMode.item sc inv, l =>
    (match l with
     | c :: rest =>
       if c = '+' ∨ c = '-' then pyParse fuel (PMode.item (sc + 1) inv) (trimLeftC rest)
       else if c = '~' then pyParse fuel (PMode.item sc true) (trimLeftC rest)
       else
         match pyParse fuel PMode.atom (c :: rest) with
         | Option.none => Option.none
         | some (e, r) =>
           match pyParse fuel (PMode.postTail e) (trimLeftC r) with
           | Option.none => Option.none
           | some (e2, r2) => some (applySigns sc inv e2, r2)
     | [] => Option.none)
  | fuel + 1, PMode.atom, l =>
    (match l with
     | [] => Option.none
     | c :: rest =>
       if c = '\'' ∨ c = '"' then
         match scanPyStr false c rest with
         | Option.none => Option.none
         | some (s, r) => pyParse fuel (PMode.strChain (String.mk s)) (trimLeftC r)
       else if c = '[' then
         pyParse fuel (PMode.elems ']' Option.none 0 false true) (trimLeftC rest)
       else if c = '(' then
         pyParse fuel (PMode.elems ')' Option.none 0 false true) (trimLeftC rest)
       else if c = '{' then
         pyParse fuel (PMode.braced Option.none 0 true) (trimLeftC rest)
       else
         match scanIdent (c :: rest) with
         | some (w, r) =>
           (match r with
            | q :: r2 =>
              if q = '\'' ∨ q = '"' then
                if w = ['r'] ∨ w = ['R'] ∨ w = ['u'] ∨ w = ['U'] then
                  match scanPyStr (decide (w = ['r'] ∨ w = ['R'])) q r2 with
                  | Option.none => Option.none
                  | some (s, r3) => pyParse fuel (PMode.strChain (String.mk s)) (trimLeftC r3)
                else if w = ['b'] ∨ w = ['B'] then
                  match scanPyStr false q r2 with
                  | Option.none => Option.none
                  | some (_, r3) => some (PyCls.litS, r3)
                else if w = ['f'] ∨ w = ['F'] then
                  match scanPyStr false q r2 with
                  | Option.none => Option.none
                  | some (_, r3) => some (PyCls.badS, r3)
                else Option.none
              else identCls w r
            | [] => identCls w [])
         | Option.none =>
           match scanNumber (c :: rest) with
           | some (isC, r) => some (PyCls.numS isC, r)
           | Option.none => Option.none)
  | fuel + 1, PMode.strChain acc, l =>
    (match l with
     | q :: rest =>
       if q = '\'' ∨ q = '"' then
         match scanPyStr false q rest with
         | Option.none => Option.none
         | some (s, r) => pyParse fuel (PMode.strChain (acc ++ String.mk s)) (trimLeftC r)
       else some (PyCls.strS acc, q :: rest)
     | [] => some (PyCls.strS acc, []))
  | fuel + 1, PMode.binTail acc, l =>
    (match l with
     | c :: rest =>
       if c = '+' ∨ c = '-' then
         match pyParse fuel (PMode.item 0 false) (trimLeftC rest) with
         | Option.none => Option.none
         | some (e2, r) => pyParse fuel (PMode.binTail (combineAdd acc e2)) (trimLeftC r)
       else
         match scanOp (c :: rest) with
         | some r2 =>
           (match pyParse fuel (PMode.item 0 false) (trimLeftC r2) with
            | Option.none => Option.none
            | some (_, r) => pyParse fuel (PMode.binTail PyCls.badS) (trimLeftC r))
         | Option.none => some (acc, c :: rest)
     | [] => some (acc, []))
  | fuel + 1, PMode.postTail acc, l =>
    (match l with
     | '(' :: rest =>
       (match pyParse fuel (PMode.elems ')' Option.none 0 false true) (trimLeftC rest) with
        | Option.none => Option.none
        | some (_, r) => pyParse fuel (PMode.postTail PyCls.badS) (trimLeftC r))
     | '[' :: rest =>
       (match pyParse fuel (PMode.elems ']' Option.none 0 false true) (trimLeftC rest) with
        | Option.none => Option.none
        | some (_, r) => pyParse fuel (PMode.postTail PyCls.badS) (trimLeftC r))
     | '.' :: rest =>
       (match scanIdent (trimLeftC rest) with
        | Option.none => Option.none
        | some (_, r) => pyParse fuel (PMode.postTail PyCls.badS) (trimLeftC r))
     | _ => some (acc, l))
  | fuel + 1, PMode.elems close firstE count sawComma allLit, l =>
    (match l with
     | [] => Option.none
     | c :: rest =>
       if c = close then some (elemsCls close firstE count sawComma allLit, rest)
       else
         match pyParse fuel PMode.expr (c :: rest) with
         | Option.none => Option.none
         | some (e, r) =>
           match trimLeftC r with
           | c2 :: rest2 =>
             if c2 = ',' then
               pyParse fuel (PMode.elems close (if count = 0 then some e else firstE)
                 (count + 1) true (allLit && pyClsOk e)) (trimLeftC rest2)
             else if c2 = close then
               some (elemsCls close (if count = 0 then some e else firstE) (count + 1) sawComma
                 (allLit && pyClsOk e), rest2)
             else Option.none
           | [] => Option.none)
  | fuel + 1, PMode.braced isDict count allLit, l =>
    (match l with
     | [] => Option.none
     | c :: rest =>
       if c = '}' then
         if count = 0 then some (PyCls.litS, rest)
         else some (if allLit then PyCls.litS else PyCls.badS, rest)
       else
         match pyParse fuel PMode.expr (c :: rest) with
         | Option.none => Option.none
         | some (k, r) =>
           match trimLeftC r with
           | ':' :: r2 =>
             if isDict = some false then Option.none
             else
               (match pyParse fuel PMode.expr (trimLeftC r2) with
                | Option.none => Option.none
                | some (v, r3) =>
                  match trimLeftC r3 with
                  | c2 :: rest2 =>
                    if c2 = ',' then
                      pyParse fuel (PMode.braced (some true) (count + 1)
                        (allLit && pyClsOk k && pyClsOk v)) (trimLeftC rest2)
                    else if c2 = '}' then
                      some (if allLit && pyClsOk k && pyClsOk v then PyCls.litS else PyCls.badS,
                        rest2)
                    else Option.none
                  | [] => Option.none)
           | c2 :: rest2 =>
             if isDict = some true then Option.none
             else if c2 = ',' then
               pyParse fuel (PMode.braced (some false) (count + 1) (allLit && pyClsOk k))
                 (trimLeftC rest2)
             else if c2 = '}' then
               some (if allLit && pyClsOk k then PyCls.litS else PyCls.badS, rest2)
             else Option.none
           | [] => Option.none)
  | fuel + 1, PMode.tupleTail allLit, l =>
    (match l with
     | [] => some (if allLit then PyCls.litS else PyCls.badS, [])
     | c :: rest =>
       match pyParse fuel PMode.expr (c :: rest) with
       | Option.none => Option.none
       | some (e, r) =>
         match trimLeftC r with
         | [] => some (if allLit && pyClsOk e then PyCls.litS else PyCls.badS, [])
         | ',' :: r2 => pyParse fuel (PMode.tupleTail (allLit && pyClsOk e)) (trimLeftC r2)
         | _ => Option.none)

/-- Parse a whole token as a Python expression - possibly a bare
top-level comma tuple - and summarise it. -/
def pyParseTop (l : List Char) : Option PyCls :=
  match pyParse (8 * l.length + 16) PMode.expr (trimLeftC l) with
  | Option.none => Option.none
  | some (e, r) =>
    match trimLeftC r with
    | [] => some e
    | ',' :: r2 =>
      (match pyParse (8 * l.length + 16) (PMode.tupleTail (pyClsOk e)) (trimLeftC r2) with
       | some (e2, _) => some e2
       | Option.none => Option.none)
    | _ => Option.none

/-- ast.literal_eval on a bus value token, classified into the four
outcomes the caller distinguishes. -/
def literalEvalC (l : List Char) : LitResult :=
  match pyParseTop l with
  | Option.none => LitResult.synErr
  | some (PyCls.strS s) => LitResult.strLit s
  | some PyCls.badS => LitResult.valErr
  | some _ => LitResult.nonStr

/-- _parseSignalValue (parse.py lines 296-331): validate and convert a
signal value token.  For lines: 0/1/Z/?.  For buses: Z/?, then
ast.literal_eval: a string constant is accepted; a non-string literal is
rejected by the isinstance check as the structured bus_value error, as is
a SyntaxError (the one exception the except clause catches and rebrands);
a non-literal expression makes literal_eval raise a ValueError that is not
caught, so it escapes bare.  The fall-through for an unrecognized signal
type raises a bare ValueError in the source; it is unreachable from the
parser. -/
def parseSignalValueE (k : SigKind) (value : List Char) (n : ℕ) (text : List Char) : Except PErr PyVal :=
  match k with
  | SigKind.line =>
    if value = ['1'] then Except.ok (PyVal.int 1)
    else if value = ['0'] then Except.ok (PyVal.int 0)
    else if value = ['Z'] then Except.ok PyVal.pynone
    else if value = ['?'] then Except.ok PyVal.unknown
    else Except.error (PErr.syn ErrKind.line_value n (String.mk text))
  | SigKind.bus =>
    if value = ['Z'] then Except.ok PyVal.pynone
    else if value = ['?'] then Except.ok PyVal.unknown
    else
      match literalEvalC value with
      | LitResult.strLit s => Except.ok (PyVal.str s)
      | LitResult.nonStr => Except.error (PErr.syn ErrKind.bus_value n (String.mk text))
      | LitResult.synErr => Except.error (PErr.syn ErrKind.bus_value n (String.mk text))
      | LitResult.valErr => Except.error PErr.literalEval
  | SigKind.clock => Except.error (PErr.model ModelErr.invalidSignalType)

/-- The properties and changes accumulated while processing one signal
block's body lines. -/
structure SigState where
  startP : Option PyVal
  lengthP : Option ℚ
  offsetP : Option ℚ
  dutyP : Option ℚ
  changes : List (ℚ × PyVal)
deriving DecidableEq

/-- The empty accumulator for a signal block. -/
def initSigState : SigState := ⟨Option.none, Option.none, Option.none, Option.none, []⟩

/-- One signal-block body line (parse.py lines 195-218): a '->' change line
(rejected for clocks; time parsed as float, duplicate times rejected, value
validated, lines may not change to unknown) or a property line (name must
be allowed for the kind; start parses as a signal value, the rest as
floats). -/
def sigLineStep (k : SigKind) (st : SigState) (nl : NLine) : Except PErr SigState :=
  let (n, l) := nl
  match splitLineC n l true with
  | Except.error e => Except.error e
  | Except.ok (target, op, value) =>
    if op = ['-', '>'] then
      if k = SigKind.clock then Except.error (PErr.syn ErrKind.clock_change n (String.mk l))
      else
        match parsePyFloat target with
        | Option.none => Except.error (PErr.syn ErrKind.bad_float n (String.mk l))
        | some time =>
          if (st.changes.map Prod.fst).contains time then
            Except.error (PErr.syn ErrKind.change_dupe n (String.mk l))
          else
            match parseSignalValueE k value n l with
            | Except.error e => Except.error e
            | Except.ok v =>
              if k = SigKind.line ∧ v = PyVal.unknown then
                Except.error (PErr.syn ErrKind.line_unknown n (String.mk l))
              else Except.ok { st with changes := st.changes ++ [(time, v)] }
    else
      if (signalPropertiesOf k).contains target then
        if target = "start".toList then
          match parseSignalValueE k value n l with
          | Except.error e => Except.error e
          | Except.ok v => Except.ok { st with startP := some v }
        else
          match parsePyFloat value with
          | Option.none => Except.error (PErr.syn ErrKind.bad_float n (String.mk l))
          | some v =>
            if target = "length".toList then Except.ok { st with lengthP := some v }
            else if target = "offset".toList then Except.ok { st with offsetP := some v }
            else Except.ok { st with dutyP := some v }
      else Except.error (PErr.syn ErrKind.signal_prop n (String.mk l))

/-- The loop over one signal block's body lines. -/
def sigLinesGo (k : SigKind) (st : SigState) : List NLine → Except PErr SigState
  | [] => Except.ok st
  | nl :: rest =>
    match sigLineStep k st nl with
    | Except.ok st2 => sigLinesGo k st2 rest
    | Except.error e => Except.error e

/-- The missing_prop error against a block's last line (parse.py lines
220-221).  _exractBlocks never emits an empty signal block, so the
fallback line (0, "") is unreachable. -/
def missingPropErr (ls : List NLine) : Except PErr Signal :=
  let (n, l) := ls.getLast?.getD (0, [])
  Except.error (PErr.syn ErrKind.missing_prop n (String.mk l))

/-- Processing one signal block (parse.py lines 191-226): run the body
lines, require exactly the kind's property set (the accumulator can only
ever hold allowed keys, so this is completeness of the required ones),
then construct the model signal, surfacing any constructor error. -/
def buildSignal (k : SigKind) (name : String) (ls : List NLine) : Except PErr Signal :=
  match sigLinesGo k initSigState ls with
  | Except.error e => Except.error e
  | Except.ok st =>
    match k with
    | SigKind.clock =>
      match st.offsetP, st.lengthP, st.dutyP with
      | some o, some len, some du =>
        match Clock.init name o len du with
        | Except.ok c => Except.ok (Signal.clock c)
        | Except.error e => Except.error (PErr.model e)
      | _, _, _ => missingPropErr ls
    | SigKind.line =>
      match st.startP with
      | some s =>
        match Line.init name s st.changes with
        | Except.ok li => Except.ok (Signal.line li)
        | Except.error e => Except.error (PErr.model e)
      | Option.none => missingPropErr ls
    | SigKind.bus =>
      match st.startP with
      | some s =>
        match Bus.init name s st.changes with
        | Except.ok bu => Except.ok (Signal.bus bu)
        | Except.error e => Except.error (PErr.model e)
      | Option.none => missingPropErr ls

/-- The signal-block loop of _parseBlocks, appending built signals in
declaration order. -/
def signalsGo (acc : List Signal) : List SigBlock → Except PErr (List Signal)
  | [] => Except.ok acc
  | sb :: rest =>
    match buildSignal sb.kind sb.name sb.slines with
    | Except.ok s => signalsGo (acc ++ [s]) rest
    | Except.error e => Except.error e

/-- _parseBlocks (parse.py lines 156-228): start from a default diagram,
apply the style lines, then the time lines, then build and append the
signals. -/
def parseBlocksF (b : Blocks) : Except PErr TimingDiagram :=
  match styleGo defaultDiagram b.styleLines with
  | Except.error e => Except.error e
  | Except.ok d1 =>
    match timeGo d1 b.timeLines with
    | Except.error e => Except.error e
    | Except.ok d2 =>
      match signalsGo [] b.signalBlocks with
      | Except.error e => Except.error e
      | Except.ok sigs => Except.ok { d2 with signals := d2.signals ++ sigs }

/-- parseTimingDescription lines 93-96: strip every line, then number the
nonempty non-comment lines 1-based. -/
def numberedLines (code : String) : List NLine :=
  (((splitLinesC code.toList).map trimC).enum.map (fun p => (p.1 + 1, p.2))).filter
    (fun p => !p.2.isEmpty && p.2.head? != some '#')

/-- parseTimingDescription (parse.py lines 84-97). -/
def parseTimingDescription (code : String) : Except PErr TimingDiagram :=
  match extractBlocks (numberedLines code) with
  | Except.error e => Except.error e
  | Except.ok b => parseBlocksF b

/-- The errors that the amended claim C1 allows to escape parsing: a
TimingSyntaxError, the bare ValueError of Clock.__init__ for a duty cycle
outside (0, 1), or the bare ValueError of ast.literal_eval on a bus value
parsing as a non-literal expression. -/
def allowedErr : PErr → Prop
  | PErr.syn _ _ _ => True
  | PErr.model m => m = ModelErr.clockDutyInvalid
  | PErr.literalEval => True

/-- Whether a parse error is a TimingSyntaxError (carries kind and line). -/
def PErr.isSyntaxErr : PErr → Bool
  | PErr.syn _ _ _ => true
  | PErr.model _ => false
  | PErr.literalEval => false

/-! ### Renderer geometry (render.py)

The inner plot frame is parametrised by its left edge and width, since the
actual values are derived from Qt font metrics (label widths and text
heights) that the embedding takes as inputs.  For a QRectF,
right = left + width. -/

/-- _timeDeltaToPixels (render.py lines 362-374): a time delta times
pixelsPerUnit, where pixelsPerUnit = innerWidth / (end - start). -/
def timeDeltaToPixels (d : TimingDiagram) (innerWidth : ℚ) (t : ℚ) : ℚ :=
  qmul t (qdiv innerWidth (qsub (intQ d.endT) (intQ d.startT)))

/-- _timeToPixels (render.py lines 349-360): innerLeft + max(0, delta
pixels of (time - start)), clamped above to innerRight - 1. -/
def timeToPixels (d : TimingDiagram) (innerLeft innerWidth : ℚ) (time : ℚ) : ℚ :=
  min (qsub (qadd innerLeft innerWidth) 1)
    (qadd innerLeft (max 0 (timeDeltaToPixels d innerWidth (qsub time (intQ d.startT)))))

/-- The time→pixel mapping exactly as the specification words it, written
with the field operations of ℚ: pixelsPerUnit = innerFrame.width /
(end - start); t maps to innerFrame.left + max(0, (t - start) *
pixelsPerUnit), clamped at the right edge to innerFrame.right - 1. -/
def timeToPixelsSpec (d : TimingDiagram) (innerLeft innerWidth : ℚ) (time : ℚ) : ℚ :=
  min (innerLeft + innerWidth - 1)
    (innerLeft + max 0 ((time - (d.startT : ℚ)) * (innerWidth / ((d.endT : ℚ) - (d.startT : ℚ)))))

/-- Python range(0, stop, step) for a nonzero step. -/
def pyRange0 (stop step : ℤ) : List ℤ :=
  if 0 < step then
    (List.range ((stop + step - 1).toNat / step.toNat)).map (fun k : ℕ => (k : ℤ) * step)
  else if step < 0 then
    (List.range ((-stop + (-step) - 1).toNat / (-step).toNat)).map (fun k : ℕ => (k : ℤ) * step)
  else []

/-- The rule times of _drawFrame (render.py lines 103-108): when the step
setting is truthy (neither None nor 0), the dashed rules stand at the
times range(0, end, step); the diagram's start plays no part in the
enumeration. -/
def gridStopTimes (d : TimingDiagram) : List ℤ :=
  match d.step with
  | some s => if s = 0 then [] else pyRange0 d.endT s
  | Option.none => []

/-- pixels_per_step of _drawFrame: pixelsPerUnit * step (0 when unset). -/
def pixelsPerStep (d : TimingDiagram) (innerWidth : ℚ) : ℚ :=
  match d.step with
  | some s => qmul (qdiv innerWidth (qsub (intQ d.endT) (intQ d.startT))) (intQ s)
  | Option.none => 0

/-- The x positions of the dashed vertical rules of _drawFrame. -/
def gridStopsPixels (d : TimingDiagram) (innerLeft innerWidth : ℚ) : List ℚ :=
  (gridStopTimes d).map (fun t => timeToPixels d innerLeft innerWidth (intQ t))

/-- The column labels of _drawFrame (render.py lines 109-116): for every
stop except the last, the label index i+1 (rendered as the text "T{i+1}")
centered half a step to the right of the rule. -/
def gridLabels (d : TimingDiagram) (innerLeft innerWidth : ℚ) : List (ℕ × ℚ) :=
  let stops := gridStopsPixels d innerLeft innerWidth
  (stops.enum.filter (fun p => p.1 != stops.length - 1)).map
    (fun p => (p.1 + 1, qadd p.2 (qdiv (pixelsPerStep d innerWidth) 2)))

/-! ### Clock expansion (render.py lines 395-424) -/

/-- on_length of _clockToLine: duty * length. -/
def onLength (c : Clock) : ℚ := qmul c.duty c.length

/-- off_length of _clockToLine: length - on_length. -/
def offLength (c : Clock) : ℚ := qsub c.length (onLength c)

/-- The initial loop time of _clockToLine: -(-offset % length), the
0-aligned phase time in (-length, 0] for a positive length. -/
def clockPhase (c : Clock) : ℚ := qneg (pyfmod (qneg c.offset) c.length)

/-- The state of the _clockToLine while loop: the running time, the
active flag, the synthetic line's start value and its change list. -/
structure ClockState where
  time : ℚ
  active : Bool
  startVal : ℤ
  changes : List (ℚ × ℤ)
deriving DecidableEq

/-- The while loop of _clockToLine, with explicit fuel standing in for the
unbounded Python loop (none means the fuel ran out, which the sufficiency
lemma rules out for valid clocks): while time < end, advance time by the
on or off run length, flip active, and either record the pre-start state
as the line's start value or append a change. -/
def clockLoop (startT endT onL offL : ℚ) : ℕ → ClockState → Option ClockState
  | 0, st => if st.time < endT then Option.none else some st
  | fuel + 1, st =>
    if st.time < endT then
      if qadd st.time (if st.active then onL else offL) ≤ startT then
        clockLoop startT endT onL offL fuel
          ⟨qadd st.time (if st.active then onL else offL), !st.active,
            if !st.active then 1 else 0, st.changes⟩
      else
        clockLoop startT endT onL offL fuel
          ⟨qadd st.time (if st.active then onL else offL), !st.active, st.startVal,
            st.changes ++ [(qadd st.time (if st.active then onL else offL),
              if !st.active then 1 else 0)]⟩
    else some st

/-- Fuel sufficient for the clock loop when each iteration advances the
time by at least m > 0. -/
def clockFuel (t0 endT m : ℚ) : ℕ := (pyceil (qdiv (qsub endT t0) m)).toNat + 2

/-- Run the _clockToLine loop for the given diagram and clock, starting
from the phase time with active = False, start value 0 and no changes. -/
def clockRun (d : TimingDiagram) (c : Clock) : Option ClockState :=
  clockLoop (intQ d.startT) (intQ d.endT) (onLength c) (offLength c)
    (clockFuel (clockPhase c) (intQ d.endT) (min (onLength c) (offLength c)))
    ⟨clockPhase c, false, 0, []⟩

/-- _clockToLine (render.py lines 395-424): run the loop and drop the last
generated change (popitem); none models the cases where the Python code
does not return (non-positive run lengths) or raises (popitem on an empty
dict, possible when end ≤ start). -/
def clockToLine (d : TimingDiagram) (c : Clock) : Option Line :=
  match clockRun d c with
  | some st =>
    if st.changes.isEmpty then Option.none
    else some ⟨c.name, PyVal.int st.startVal,
      (st.changes.dropLast).map (fun p => (p.1, PyVal.int p.2))⟩
  | Option.none => Option.none

/-- Two consecutive changes of an expanded clock: the value flips between
0 and 1 and the time advances by the on run length after a rise and the
off run length after a fall. -/
def clockStepRel (onL offL : ℚ) (p q : ℚ × ℤ) : Prop :=
  q.2 = 1 - p.2 ∧ q.1 = qadd p.1 (if p.2 = 1 then onL else offL)

/-- Invariant of the _clockToLine loop state (t0 is the initial phase
time): the recorded changes form a chain of alternating 0/1 values spaced
by the run lengths, lie strictly after start (all but the last strictly
before end), the start value is a bit, the empty-changes state still sits
at or before start (or at the initial time), the last change mirrors the
running time and active flag, and the first change flips the start
value. -/
def clockInv (startT endT t0 onL offL : ℚ) (st : ClockState) : Prop :=
  List.Chain' (clockStepRel onL offL) st.changes ∧
  (∀ p ∈ st.changes, startT < p.1 ∧ (p.2 = 0 ∨ p.2 = 1)) ∧
  (∀ p ∈ st.changes.dropLast, p.1 < endT) ∧
  (st.startVal = 0 ∨ st.startVal = 1) ∧
  (st.changes = [] → st.startVal = (if st.active then 1 else 0) ∧ (st.time ≤ startT ∨ st.time = t0)) ∧
  (∀ p, st.changes.getLast? = some p → p = (st.time, if st.active then 1 else 0)) ∧
  (∀ p, st.changes.head? = some p → p.2 = 1 - st.startVal)

/-- Invariant of the signal-block accumulator: change times are pairwise
distinct, and for a line block the collected values and start lie in the
domains that Line.__init__ accepts. -/
def sigInv (k : SigKind) (st : SigState) : Prop :=
  (st.changes.map Prod.fst).Nodup ∧
  (k = SigKind.line →
    (∀ p ∈ st.changes, p.2 = PyVal.int 0 ∨ p.2 = PyVal.int 1 ∨ p.2 = PyVal.pynone) ∧
    (∀ v, st.startP = some v →
      v = PyVal.int 0 ∨ v = PyVal.int 1 ∨ v = PyVal.unknown ∨ v = PyVal.pynone))

/-! ## Theorems

First the correctness lemmas for the kernel-reducible arithmetic, then the
claims in order. -/

theorem qadd_eq (a b : ℚ) : qadd a b = a + b := by
  have ha : ((a.den : ℚ)) ≠ 0 := Nat.cast_ne_zero.mpr a.den_ne_zero
  have hb : ((b.den : ℚ)) ≠ 0 := Nat.cast_ne_zero.mpr b.den_ne_zero
  rw [qadd, Rat.divInt_eq_div]
  push_cast
  conv_rhs => rw [← Rat.num_div_den a, ← Rat.num_div_den b]
  field_simp

theorem qsub_eq (a b : ℚ) : qsub a b = a - b := by
  have ha : ((a.den : ℚ)) ≠ 0 := Nat.cast_ne_zero.mpr a.den_ne_zero
  have hb : ((b.den : ℚ)) ≠ 0 := Nat.cast_ne_zero.mpr b.den_ne_zero
  rw [qsub, Rat.divInt_eq_div]
  push_cast
  conv_rhs => rw [← Rat.num_div_den a, ← Rat.num_div_den b]
  field_simp
  ring

theorem qmul_eq (a b : ℚ) : qmul a b = a * b := by
  have ha : ((a.den : ℚ)) ≠ 0 := Nat.cast_ne_zero.mpr a.den_ne_zero
  have hb : ((b.den : ℚ)) ≠ 0 := Nat.cast_ne_zero.mpr b.den_ne_zero
  rw [qmul, Rat.divInt_eq_div]
  push_cast
  conv_rhs => rw [← Rat.num_div_den a, ← Rat.num_div_den b]
  field_simp

theorem qneg_eq (a : ℚ) : qneg a = -a := by
  have ha : ((a.den : ℚ)) ≠ 0 := Nat.cast_ne_zero.mpr a.den_ne_zero
  rw [qneg, Rat.divInt_eq_div]
  push_cast
  conv_rhs => rw [← Rat.num_div_den a]
  field_simp

theorem qdiv_eq (a b : ℚ) : qdiv a b = a / b := by
  have ha : ((a.den : ℚ)) ≠ 0 := Nat.cast_ne_zero.mpr a.den_ne_zero
  have hb : ((b.den : ℚ)) ≠ 0 := Nat.cast_ne_zero.mpr b.den_ne_zero
  rw [qdiv, Rat.divInt_eq_div]
  push_cast
  rcases eq_or_ne b 0 with rb | rb
  · subst rb
    simp
  · have hbn : ((b.num : ℚ)) ≠ 0 := by
      simpa using Rat.num_ne_zero.mpr rb
    conv_rhs => rw [← Rat.num_div_den a, ← Rat.num_div_den b]
    field_simp

theorem intQ_eq (n : ℤ) : intQ n = (n : ℚ) := by
  rw [intQ, Rat.divInt_eq_div]
  simp

theorem pyfloor_eq (q : ℚ) : pyfloor q = ⌊q⌋ := Rat.floor_def.symm

/-! ### Claim C3: the margin validation of TimingDiagram.__init__ -/

/-- C3 counterexample: constructing a TimingDiagram with margin exactly
half the width (and half the height) succeeds, so "margin >= width/2
fails" and the invariant "margin < width/2" are both refuted by the
code, whose check is strict (margin > width/2). -/
theorem claim3_counterexample :
    TimingDiagram.init 800 800 400 12 "Times New Roman" 0xffffff 0x000000 0 100 Option.none 10 [] =
      Except.ok ⟨800, 800, 400, 12, "Times New Roman", 0xffffff, 0x000000, 0, 100, Option.none, 10, []⟩ ∧
    ¬ ((400 : ℚ) < 800 / 2) := by
  constructor
  · decide
  · norm_num

/-- C3 amended: the constructor fails exactly when margin > width/2 or
margin > height/2; every diagram it returns satisfies margin ≤ width/2 and
margin ≤ height/2 (non-strict). -/
theorem claim3_margin_validation (width height margin fontSize : ℚ) (fontFamily : String)
    (background foreground : ℤ) (startT endT : ℤ) (step : Option ℤ) (delay : ℤ)
    (signals : List Signal) :
    ((∃ d, TimingDiagram.init width height margin fontSize fontFamily background foreground
        startT endT step delay signals = Except.ok d) ↔
      margin ≤ width / 2 ∧ margin ≤ height / 2) ∧
    (∀ d, TimingDiagram.init width height margin fontSize fontFamily background foreground
        startT endT step delay signals = Except.ok d →
      d.margin ≤ d.width / 2 ∧ d.margin ≤ d.height / 2) := by
  unfold TimingDiagram.init
  rw [qdiv_eq, qdiv_eq]
  by_cases h : margin > width / 2 ∨ margin > height / 2
  · rw [if_pos h]
    constructor
    · constructor
      · rintro ⟨d, hd⟩
        cases hd
      · rintro ⟨h1, h2⟩
        rcases h with h | h
        · exact absurd h1 (not_le.mpr h)
        · exact absurd h2 (not_le.mpr h)
    · intro d hd
      cases hd
  · rw [if_neg h]
    push_neg at h
    constructor
    · constructor
      · intro _
        exact h
      · intro _
        exact ⟨_, rfl⟩
    · intro d hd
      cases hd
      exact h

/-- C3 witness: the amended validation at width 800, height 700,
margin 350. -/
theorem claim3_witness :
    ((∃ d, TimingDiagram.init 800 700 350 12 "Times New Roman" 0xffffff 0x000000
        0 100 Option.none 10 [] = Except.ok d) ↔
      (350 : ℚ) ≤ 800 / 2 ∧ (350 : ℚ) ≤ 700 / 2) ∧
    (∀ d, TimingDiagram.init 800 700 350 12 "Times New Roman" 0xffffff 0x000000
        0 100 Option.none 10 [] = Except.ok d →
      d.margin ≤ d.width / 2 ∧ d.margin ≤ d.height / 2) :=
  claim3_margin_validation 800 700 350 12 "Times New Roman" 0xffffff 0x000000
    0 100 Option.none 10 []

/-! ### Claim C7: Bus.__init__ does not validate values -/

/-- The loop of Bus.__init__ succeeds iff every processed time is new with
respect to the accumulator and the remaining times are pairwise distinct;
values are never examined. -/
theorem buildBusChanges_ok_iff (l : List (ℚ × PyVal)) : ∀ acc : List (ℚ × PyVal),
    (∃ r, buildBusChanges acc l = Except.ok r) ↔
      ((l.map Prod.fst).Nodup ∧ ∀ t ∈ l.map Prod.fst, t ∉ acc.map Prod.fst) := by
  induction l with
  | nil =>
    intro acc
    simp [buildBusChanges]
  | cons p rest ih =>
    intro acc
    obtain ⟨t, v⟩ := p
    by_cases h : (acc.map Prod.fst).contains t = true
    · have hmem : t ∈ acc.map Prod.fst := by simpa using h
      simp only [buildBusChanges, if_pos h]
      constructor
      · rintro ⟨r, hr⟩
        cases hr
      · rintro ⟨_, hnot⟩
        exact absurd hmem (hnot t (by simp))
    · have hnmem : t ∉ acc.map Prod.fst := by simpa using h
      simp only [buildBusChanges, if_neg h]
      rw [ih (acc ++ [(t, v)])]
      constructor
      · rintro ⟨hn, hall⟩
        have htn : t ∉ rest.map Prod.fst := by
          intro hmem
          have h2 := hall t hmem
          simp at h2
        constructor
        · simp only [List.map_cons, List.nodup_cons]
          exact ⟨htn, hn⟩
        · intro x hx
          simp only [List.map_cons, List.mem_cons] at hx
          rcases hx with hx | hx
          · subst hx
            exact hnmem
          · have h2 := hall x hx
            intro hc
            exact h2 (by simp [hc])
      · rintro ⟨hncons, hall⟩
        simp only [List.map_cons, List.nodup_cons] at hncons
        obtain ⟨hnt, hn⟩ := hncons
        refine ⟨hn, ?_⟩
        intro x hx hc
        simp only [List.map_append, List.map_cons, List.map_nil, List.mem_append,
          List.mem_cons, List.not_mem_nil, or_false] at hc
        rcases hc with hc | hc
        · exact hall x (by simp [hx]) hc
        · subst hc
          exact hnt hx

/-- Bus.__init__ succeeds iff the change times are pairwise distinct. -/
theorem busInit_ok_iff (name : String) (start : PyVal) (changes : List (ℚ × PyVal)) :
    (∃ b, Bus.init name start changes = Except.ok b) ↔
      (∃ r, buildBusChanges [] (List.insertionSort (fun p q => p.1 ≤ q.1) changes) = Except.ok r) := by
  unfold Bus.init
  cases h : buildBusChanges [] (List.insertionSort (fun p q => p.1 ≤ q.1) changes) with
  | ok r => simp [h]
  | error e => simp [h]

/-- C7 counterexample: constructing a Bus whose change value is the
integer 42 (neither Unknown nor Floating nor a string) succeeds, and the
value 42 is stored. -/
theorem claim7_counterexample :
    Bus.init "b" (PyVal.str "A") [(1, PyVal.int 42)] =
      Except.ok ⟨"b", PyVal.str "A", [(1, PyVal.int 42)]⟩ ∧
    (1, PyVal.int 42) ∈ ([((1 : ℚ), PyVal.int 42)] : List (ℚ × PyVal)) := by
  constructor
  · decide
  · decide

/-- C7 amended: Bus.__init__ validates only the change times (numbers with
no duplicates); values are not checked at all, so construction succeeds
exactly when the change times are pairwise distinct, whatever the
values. -/
theorem claim7_bus_validation (name : String) (start : PyVal) (changes : List (ℚ × PyVal)) :
    (∃ b, Bus.init name start changes = Except.ok b) ↔ (changes.map Prod.fst).Nodup := by
  rw [busInit_ok_iff, buildBusChanges_ok_iff]
  have hperm : List.Perm
      ((List.insertionSort (fun p q : ℚ × PyVal => p.1 ≤ q.1) changes).map Prod.fst)
      (changes.map Prod.fst) :=
    (List.perm_insertionSort (fun p q : ℚ × PyVal => p.1 ≤ q.1) changes).map Prod.fst
  simp [hperm.nodup_iff]

/-- C7 witness: the amended characterization applied at a bus with the
non-string, non-Z/? change value 42 and a duplicated time. -/
theorem claim7_witness :
    ((∃ b, Bus.init "b" (PyVal.str "A") [(1, PyVal.int 42)] = Except.ok b) ↔
      (([((1 : ℚ), PyVal.int 42)] : List (ℚ × PyVal)).map Prod.fst).Nodup) ∧
    ((∃ b, Bus.init "b" PyVal.unknown [(1, PyVal.int 42), (1, PyVal.pynone)] = Except.ok b) ↔
      (([((1 : ℚ), PyVal.int 42), (1, PyVal.pynone)] : List (ℚ × PyVal)).map Prod.fst).Nodup) :=
  ⟨claim7_bus_validation "b" (PyVal.str "A") [(1, PyVal.int 42)],
    claim7_bus_validation "b" PyVal.unknown [(1, PyVal.int 42), (1, PyVal.pynone)]⟩

/-! ### Claim C2: parsing "clock:\n0->1\n" -/

/-- C2 counterexample: the input "clock:\n0->1\n" does not produce a
clock_change error on line 2; the header "clock:" lacks the required name
argument, so parsing stops with signal_args on line 1. -/
theorem claim2_counterexample :
    parseTimingDescription "clock:\n0->1\n" =
      Except.error (PErr.syn ErrKind.signal_args 1 "clock:") ∧
    ErrKind.signal_args ≠ ErrKind.clock_change ∧ (1 : ℕ) ≠ 2 := by
  refine ⟨by decide, by decide, by decide⟩

/-- C2 amended: a clock block header needs a name, so "clock:\n0->1\n"
fails with signal_args on line 1; with a named clock block the change line
is indeed rejected with clock_change on line 2. -/
theorem claim2_clock_change :
    parseTimingDescription "clock:\n0->1\n" =
      Except.error (PErr.syn ErrKind.signal_args 1 "clock:") ∧
    parseTimingDescription "clock c:\n0->1\n" =
      Except.error (PErr.syn ErrKind.clock_change 2 "0->1") := by
  refine ⟨by decide, by decide⟩

/-! ### Claim C10: style properties bypass the margin validation -/

/-- C10: parseTimingDescription applies style properties by direct
attribute assignment onto an already constructed default diagram, so a
style block setting margin to 500 parses successfully into a diagram with
margin 500 and the default width 800, violating margin < width/2. -/
theorem claim10_margin_bypass :
    ∃ d, parseTimingDescription "style:\nmargin = 500" = Except.ok d ∧
      d.margin = 500 ∧ d.width = 800 ∧ ¬ (d.margin < d.width / 2) := by
  refine ⟨{ defaultDiagram with margin := intQ 500 }, by decide, by decide, by decide, ?_⟩
  show ¬ (intQ 500 < (800 : ℚ) / 2)
  rw [intQ_eq]
  norm_num

/-! ### Claim C5: the time→pixel mapping -/

/-- C5: _timeToPixels maps a time t to innerFrame.left + max(0,
(t - start) * pixelsPerUnit) with pixelsPerUnit = innerFrame.width /
(end - start), clamped above so the result never exceeds
innerFrame.right - 1 (for a QRectF, right = left + width). -/
theorem claim5_time_to_pixels (d : TimingDiagram) (innerLeft innerWidth t : ℚ) :
    timeToPixels d innerLeft innerWidth t = timeToPixelsSpec d innerLeft innerWidth t ∧
    timeToPixels d innerLeft innerWidth t ≤ innerLeft + innerWidth - 1 := by
  have h : timeToPixels d innerLeft innerWidth t = timeToPixelsSpec d innerLeft innerWidth t := by
    unfold timeToPixels timeToPixelsSpec timeDeltaToPixels
    simp [qadd_eq, qsub_eq, qmul_eq, qdiv_eq, intQ_eq]
  refine ⟨h, ?_⟩
  rw [h]
  exact min_le_left _ _

/-! ### Claim C8: duplicate change times within one signal block -/

/-- Processing a signal block's lines splits over list append. -/
theorem sigLinesGo_append (k : SigKind) (xs ys : List NLine) : ∀ st : SigState,
    sigLinesGo k st (xs ++ ys) =
      match sigLinesGo k st xs with
      | Except.ok st2 => sigLinesGo k st2 ys
      | Except.error e => Except.error e := by
  induction xs with
  | nil =>
    intro st
    simp [sigLinesGo]
  | cons nl rest ih =>
    intro st
    simp only [List.cons_append, sigLinesGo]
    cases h : sigLineStep k st nl with
    | ok st2 => simp [h, ih st2]
    | error e => simp [h]

/-- C8: inside one non-clock signal block, if the lines processed so far
produced state st with a change already recorded at time t, then a further
change line whose left side parses to the same time t makes the whole
block fail with a change_dupe error carrying that line's number and
text. -/
theorem claim8_change_dupe (k : SigKind) (name : String) (pre post : List NLine)
    (n : ℕ) (l lhs rhs : List Char) (st : SigState) (t : ℚ)
    (hk : k ≠ SigKind.clock)
    (hpre : sigLinesGo k initSigState pre = Except.ok st)
    (hsplit : splitLineC n l true = Except.ok (lhs, ['-', '>'], rhs))
    (htime : parsePyFloat lhs = some t)
    (hdupe : t ∈ st.changes.map Prod.fst) :
    buildSignal k name (pre ++ (n, l) :: post) =
      Except.error (PErr.syn ErrKind.change_dupe n (String.mk l)) := by
  have hcont : (st.changes.map Prod.fst).contains t = true := by simpa using hdupe
  have hstep : sigLineStep k st (n, l) =
      Except.error (PErr.syn ErrKind.change_dupe n (String.mk l)) := by
    unfold sigLineStep
    simp only [hsplit]
    rw [if_pos trivial, if_neg hk]
    simp only [htime]
    rw [if_pos hcont]
  unfold buildSignal
  rw [sigLinesGo_append, hpre]
  simp only [sigLinesGo, hstep]

/-- C8 witness: the block "line a:" with body lines "start = 0", "5->1",
"5->0" fails with change_dupe on line 4 (the second occurrence), both at
the block level through the theorem and end to end through
parseTimingDescription. -/
theorem claim8_witness :
    (SigKind.line ≠ SigKind.clock) ∧
    (sigLinesGo SigKind.line initSigState [(2, "start = 0".toList), (3, "5->1".toList)] =
      Except.ok ⟨some (PyVal.int 0), Option.none, Option.none, Option.none, [(5, PyVal.int 1)]⟩) ∧
    (splitLineC 4 "5->0".toList true = Except.ok ("5".toList, ['-', '>'], "0".toList)) ∧
    (parsePyFloat "5".toList = some 5) ∧
    ((5 : ℚ) ∈ ([((5 : ℚ), PyVal.int 1)].map Prod.fst)) ∧
    (buildSignal SigKind.line "a"
        ([(2, "start = 0".toList), (3, "5->1".toList)] ++ (4, "5->0".toList) :: []) =
      Except.error (PErr.syn ErrKind.change_dupe 4 (String.mk "5->0".toList))) ∧
    (parseTimingDescription "line a:\nstart = 0\n5->1\n5->0" =
      Except.error (PErr.syn ErrKind.change_dupe 4 "5->0")) := by
  refine ⟨by decide, by decide, by decide, by decide, by decide, ?_, by decide⟩
  exact claim8_change_dupe SigKind.line "a" [(2, "start = 0".toList), (3, "5->1".toList)] []
    4 "5->0".toList "5".toList "0".toList
    ⟨some (PyVal.int 0), Option.none, Option.none, Option.none, [(5, PyVal.int 1)]⟩ 5
    (by decide) (by decide) (by decide) (by decide) (by decide)

/-! ### Claim C1: the error discipline of parseTimingDescription

Every declaration below tracks which errors a piece of the parser can
raise: every explicit raise is a TimingSyntaxError, the parser-side
validation makes the Line and Bus constructor errors unreachable, and the
only model error that can surface is the clock duty ValueError. -/

theorem missingPropErr_error (ls : List NLine) (e : PErr)
    (h : missingPropErr ls = Except.error e) : allowedErr e := by
  unfold missingPropErr at h
  generalize hgl : ls.getLast?.getD (0, []) = p at h
  obtain ⟨n0, l0⟩ := p
  cases h
  trivial

theorem splitLineC_error (n : ℕ) (l : List Char) (a : Bool) (e : PErr)
    (h : splitLineC n l a = Except.error e) : allowedErr e := by
  simp only [splitLineC] at h
  repeat' (first | split at h | split_ifs at h)
  all_goals try cases h
  all_goals trivial

theorem startProp_not_clock (k : SigKind) (target : List Char)
    (hmem : (signalPropertiesOf k).contains target = true)
    (ht : target = "start".toList) : k ≠ SigKind.clock := by
  intro hc
  subst hc
  subst ht
  revert hmem
  decide

theorem parseSignalValueE_error (k : SigKind) (v : List Char) (n : ℕ) (t : List Char) (e : PErr)
    (hk : k ≠ SigKind.clock) (h : parseSignalValueE k v n t = Except.error e) : allowedErr e := by
  cases k with
  | clock => exact absurd rfl hk
  | line =>
    simp only [parseSignalValueE] at h
    repeat' (first | split at h | split_ifs at h)
    all_goals try cases h
    all_goals trivial
  | bus =>
    simp only [parseSignalValueE] at h
    repeat' (first | split at h | split_ifs at h)
    all_goals try cases h
    all_goals trivial

theorem parseSignalValueE_line_ok (v : List Char) (n : ℕ) (t : List Char) (val : PyVal)
    (h : parseSignalValueE SigKind.line v n t = Except.ok val) :
    val = PyVal.int 0 ∨ val = PyVal.int 1 ∨ val = PyVal.unknown ∨ val = PyVal.pynone := by
  simp only [parseSignalValueE] at h
  repeat' (first | split at h | split_ifs at h)
  all_goals try cases h
  all_goals try exact Or.inl rfl
  all_goals try exact Or.inr (Or.inl rfl)
  all_goals try exact Or.inr (Or.inr (Or.inl rfl))
  all_goals try exact Or.inr (Or.inr (Or.inr rfl))

theorem sigLineStep_error (k : SigKind) (st : SigState) (nl : NLine) (e : PErr)
    (h : sigLineStep k st nl = Except.error e) : allowedErr e := by
  obtain ⟨n, l⟩ := nl
  simp only [sigLineStep] at h
  repeat' (first | split at h | split_ifs at h)
  all_goals try cases h
  all_goals try trivial
  all_goals try exact splitLineC_error _ _ _ _ (by assumption)
  all_goals try (exact parseSignalValueE_error _ _ _ _ _ (by assumption) (by assumption))
  all_goals try (exact parseSignalValueE_error _ _ _ _ _ (startProp_not_clock _ _ (by assumption) (by assumption)) (by assumption))

theorem sigLineStep_inv (k : SigKind) (st st2 : SigState) (nl : NLine)
    (h : sigLineStep k st nl = Except.ok st2) (hinv : sigInv k st) : sigInv k st2 := by
  obtain ⟨n, l⟩ := nl
  obtain ⟨hnodup, hline⟩ := hinv
  simp only [sigLineStep] at h
  repeat' (first | split at h | split_ifs at h)
  all_goals try cases h
  all_goals try (exact And.intro hnodup hline)
  all_goals try
    (refine And.intro hnodup ?_
     intro hkl
     subst hkl
     obtain ⟨hvals, _⟩ := hline rfl
     refine ⟨hvals, ?_⟩
     intro w hw
     cases hw
     exact parseSignalValueE_line_ok _ _ _ _ (by assumption))
  all_goals
    (refine And.intro ?_ ?_
     · simp only [List.map_append, List.map_cons, List.map_nil]
       rw [List.nodup_append]
       refine ⟨hnodup, List.nodup_singleton _, ?_⟩
       intro x hx hx2
       simp only [List.mem_singleton] at hx2
       subst hx2
       have hc : (st.changes.map Prod.fst).contains x = true := by simpa using hx
       exact (by assumption : ¬ ((st.changes.map Prod.fst).contains x = true)) hc
     · intro hkl
       subst hkl
       obtain ⟨hvals, hstart⟩ := hline rfl
       refine ⟨?_, hstart⟩
       intro p hp
       rcases List.mem_append.mp hp with hp | hp
       · exact hvals p hp
       · simp only [List.mem_singleton] at hp
         subst hp
         rcases parseSignalValueE_line_ok _ _ _ _ (by assumption) with hv | hv | hv | hv
         · exact Or.inl hv
         · exact Or.inr (Or.inl hv)
         · simp_all
         · exact Or.inr (Or.inr hv))

theorem sigLinesGo_error (k : SigKind) (ls : List NLine) : ∀ (st : SigState) (e : PErr),
    sigLinesGo k st ls = Except.error e → allowedErr e := by
  induction ls with
  | nil =>
    intro st e h
    cases h
  | cons nl rest ih =>
    intro st e h
    simp only [sigLinesGo] at h
    cases hs : sigLineStep k st nl with
    | ok st2 =>
      try rw [hs] at h
      exact ih st2 e h
    | error e2 =>
      try rw [hs] at h
      cases h
      exact sigLineStep_error k st nl _ hs

theorem sigLinesGo_inv (k : SigKind) (ls : List NLine) : ∀ (st st2 : SigState),
    sigLinesGo k st ls = Except.ok st2 → sigInv k st → sigInv k st2 := by
  induction ls with
  | nil =>
    intro st st2 h hinv
    cases h
    exact hinv
  | cons nl rest ih =>
    intro st st2 h hinv
    simp only [sigLinesGo] at h
    cases hs : sigLineStep k st nl with
    | ok stm =>
      try rw [hs] at h
      exact ih stm st2 h (sigLineStep_inv k st stm nl hs hinv)
    | error e2 =>
      try rw [hs] at h
      cases h

theorem buildLineChanges_ok (l : List (ℚ × PyVal)) : ∀ acc : List (ℚ × PyVal),
    (∀ p ∈ l, p.2 = PyVal.int 0 ∨ p.2 = PyVal.int 1 ∨ p.2 = PyVal.pynone) →
    (l.map Prod.fst).Nodup →
    (∀ t ∈ l.map Prod.fst, t ∉ acc.map Prod.fst) →
    ∃ r, buildLineChanges acc l = Except.ok r := by
  induction l with
  | nil =>
    intro acc _ _ _
    exact ⟨acc, rfl⟩
  | cons p rest ih =>
    intro acc hv hn hd
    obtain ⟨t, v⟩ := p
    have hvt : v = PyVal.int 0 ∨ v = PyVal.int 1 ∨ v = PyVal.pynone := hv (t, v) (by simp)
    have hta : t ∉ acc.map Prod.fst := hd t (by simp)
    have hnt : ¬ ((acc.map Prod.fst).contains t = true) := by simpa using hta
    simp only [List.map_cons, List.nodup_cons] at hn
    rw [buildLineChanges, if_pos hvt, if_neg hnt]
    apply ih
    · intro q hq
      exact hv q (by simp [hq])
    · exact hn.2
    · intro x hx hc
      simp only [List.map_append, List.map_cons, List.map_nil, List.mem_append,
        List.mem_cons, List.not_mem_nil, or_false] at hc
      rcases hc with hc | hc
      · exact hd x (by simp [hx]) hc
      · subst hc
        exact hn.1 hx

theorem lineInit_ok (name : String) (s : PyVal) (changes : List (ℚ × PyVal))
    (hs : s = PyVal.int 0 ∨ s = PyVal.int 1 ∨ s = PyVal.unknown ∨ s = PyVal.pynone)
    (hv : ∀ p ∈ changes, p.2 = PyVal.int 0 ∨ p.2 = PyVal.int 1 ∨ p.2 = PyVal.pynone)
    (hn : (changes.map Prod.fst).Nodup) :
    ∃ li, Line.init name s changes = Except.ok li := by
  unfold Line.init
  rw [if_pos hs]
  have hperm : List.Perm
      ((List.insertionSort (fun p q : ℚ × PyVal => p.1 ≤ q.1) changes).map Prod.fst)
      (changes.map Prod.fst) :=
    (List.perm_insertionSort (fun p q : ℚ × PyVal => p.1 ≤ q.1) changes).map Prod.fst
  obtain ⟨r, hr⟩ := buildLineChanges_ok
    (List.insertionSort (fun p q : ℚ × PyVal => p.1 ≤ q.1) changes) []
    (fun p hp => hv p (by simpa using hp))
    (hperm.nodup_iff.mpr hn)
    (by simp)
  rw [hr]
  exact ⟨_, rfl⟩

theorem busInit_ok (name : String) (s : PyVal) (changes : List (ℚ × PyVal))
    (hn : (changes.map Prod.fst).Nodup) :
    ∃ b, Bus.init name s changes = Except.ok b := by
  rw [busInit_ok_iff, buildBusChanges_ok_iff]
  have hperm : List.Perm
      ((List.insertionSort (fun p q : ℚ × PyVal => p.1 ≤ q.1) changes).map Prod.fst)
      (changes.map Prod.fst) :=
    (List.perm_insertionSort (fun p q : ℚ × PyVal => p.1 ≤ q.1) changes).map Prod.fst
  exact ⟨hperm.nodup_iff.mpr hn, by simp⟩

theorem clockInit_error (name : String) (o len du : ℚ) (e : ModelErr)
    (h : Clock.init name o len du = Except.error e) : e = ModelErr.clockDutyInvalid := by
  unfold Clock.init at h
  split_ifs at h
  all_goals try cases h
  all_goals rfl

theorem buildSignal_error (k : SigKind) (name : String) (ls : List NLine) (e : PErr)
    (h : buildSignal k name ls = Except.error e) : allowedErr e := by
  have hinv0 : sigInv k initSigState := by
    refine ⟨by simp [initSigState], ?_⟩
    intro _
    refine ⟨by simp [initSigState], ?_⟩
    intro v hv
    simp [initSigState] at hv
  unfold buildSignal at h
  split at h
  · cases h
    rename_i hgo
    exact sigLinesGo_error k ls initSigState _ hgo
  · rename_i st hgo
    have hinv : sigInv k st := sigLinesGo_inv k ls initSigState st hgo hinv0
    split at h
    · -- clock
      split at h
      all_goals try exact missingPropErr_error ls e h
      split at h
      all_goals try cases h
      rename_i hc
      exact clockInit_error _ _ _ _ _ hc
    · -- line
      split at h
      all_goals try exact missingPropErr_error ls e h
      rename_i s hsp
      split at h
      all_goals try cases h
      rename_i hli2
      obtain ⟨li, hli⟩ := lineInit_ok name s st.changes
        ((hinv.2 rfl).2 s hsp) (hinv.2 rfl).1 hinv.1
      rw [hli] at hli2
      cases hli2
    · -- bus
      split at h
      all_goals try exact missingPropErr_error ls e h
      rename_i s hsp
      split at h
      all_goals try cases h
      rename_i hbu2
      obtain ⟨bu, hbu⟩ := busInit_ok name s st.changes hinv.1
      rw [hbu] at hbu2
      cases hbu2

theorem signalsGo_error (blocks : List SigBlock) : ∀ (acc : List Signal) (e : PErr),
    signalsGo acc blocks = Except.error e → allowedErr e := by
  induction blocks with
  | nil =>
    intro acc e h
    cases h
  | cons sb rest ih =>
    intro acc e h
    simp only [signalsGo] at h
    cases hb : buildSignal sb.kind sb.name sb.slines with
    | ok s =>
      try rw [hb] at h
      exact ih (acc ++ [s]) e h
    | error e2 =>
      try rw [hb] at h
      cases h
      exact buildSignal_error sb.kind sb.name sb.slines _ hb

theorem styleStep_error (d : TimingDiagram) (nl : NLine) (e : PErr)
    (h : styleStep d nl = Except.error e) : allowedErr e := by
  obtain ⟨n, l⟩ := nl
  simp only [styleStep] at h
  repeat' (first | split at h | split_ifs at h)
  all_goals try cases h
  all_goals try trivial
  all_goals exact splitLineC_error _ _ _ _ (by assumption)

theorem styleGo_error (ls : List NLine) : ∀ (d : TimingDiagram) (e : PErr),
    styleGo d ls = Except.error e → allowedErr e := by
  induction ls with
  | nil =>
    intro d e h
    cases h
  | cons nl rest ih =>
    intro d e h
    simp only [styleGo] at h
    cases hs : styleStep d nl with
    | ok d2 =>
      try rw [hs] at h
      exact ih d2 e h
    | error e2 =>
      try rw [hs] at h
      cases h
      exact styleStep_error d nl _ hs

theorem timeStep_error (d : TimingDiagram) (nl : NLine) (e : PErr)
    (h : timeStep d nl = Except.error e) : allowedErr e := by
  obtain ⟨n, l⟩ := nl
  simp only [timeStep] at h
  repeat' (first | split at h | split_ifs at h)
  all_goals try cases h
  all_goals try trivial
  all_goals exact splitLineC_error _ _ _ _ (by assumption)

theorem timeGo_error (ls : List NLine) : ∀ (d : TimingDiagram) (e : PErr),
    timeGo d ls = Except.error e → allowedErr e := by
  induction ls with
  | nil =>
    intro d e h
    cases h
  | cons nl rest ih =>
    intro d e h
    simp only [timeGo] at h
    cases hs : timeStep d nl with
    | ok d2 =>
      try rw [hs] at h
      exact ih d2 e h
    | error e2 =>
      try rw [hs] at h
      cases h
      exact timeStep_error d nl _ hs

theorem parseBlocksF_error (b : Blocks) (e : PErr)
    (h : parseBlocksF b = Except.error e) : allowedErr e := by
  unfold parseBlocksF at h
  split at h
  · cases h
    rename_i h1
    exact styleGo_error b.styleLines defaultDiagram _ h1
  · rename_i d1 h1
    split at h
    · cases h
      rename_i h2
      exact timeGo_error b.timeLines d1 _ h2
    · rename_i d2 h2
      split at h
      · cases h
        rename_i h3
        exact signalsGo_error b.signalBlocks [] _ h3
      · cases h

theorem extractStep_error (b : Blocks) (cur : Cursor) (nl : NLine) (e : PErr)
    (h : extractStep b cur nl = Except.error e) : allowedErr e := by
  obtain ⟨n, l⟩ := nl
  simp only [extractStep] at h
  repeat' (first | split at h | split_ifs at h)
  all_goals try cases h
  all_goals trivial

theorem extractGo_error (ls : List NLine) : ∀ (b : Blocks) (cur : Cursor) (e : PErr),
    extractGo b cur ls = Except.error e → allowedErr e := by
  induction ls with
  | nil =>
    intro b cur e h
    cases h
  | cons nl rest ih =>
    intro b cur e h
    simp only [extractGo] at h
    cases hs : extractStep b cur nl with
    | ok bc =>
      obtain ⟨b2, cur2⟩ := bc
      try rw [hs] at h
      exact ih b2 cur2 e h
    | error e2 =>
      try rw [hs] at h
      cases h
      exact extractStep_error b cur nl _ hs

theorem extractBlocks_error (ls : List NLine) (e : PErr)
    (h : extractBlocks ls = Except.error e) : allowedErr e := by
  unfold extractBlocks at h
  split at h
  · cases h
    rename_i hx
    exact extractGo_error ls ⟨[], [], []⟩ Cursor.outside _ hx
  · repeat' (first | split at h | split_ifs at h)
    all_goals try cases h
    all_goals trivial

/-- C1 amended: parseTimingDescription always terminates, and the only
errors it can produce are a TimingSyntaxError carrying kind, line number
and line text, or a bare ValueError without line information in exactly
two cases: the one Clock.__init__ raises when a clock's duty parses as a
number outside (0, 1), and the one ast.literal_eval raises on a bus value
parsing as a non-literal expression, which the except SyntaxError clause
does not catch.  Those two bare cases are exactly where the claim's "must
still produce a SyntaxError" fails on the code. -/
theorem claim1_parse_error_discipline (code : String) (e : PErr)
    (h : parseTimingDescription code = Except.error e) : allowedErr e := by
  unfold parseTimingDescription at h
  split at h
  · cases h
    rename_i hx
    exact extractBlocks_error (numberedLines code) _ hx
  · exact parseBlocksF_error _ e h

/-- C1 counterexample: a clock block whose duty parses as the float 2
(outside (0, 1)) makes parsing fail with the model-level ValueError, and a
bus block whose start value is the bare name foo makes parsing fail with
the uncaught ValueError of ast.literal_eval; neither is a
TimingSyntaxError, and neither carries a kind or line information. -/
theorem claim1_counterexample :
    parseTimingDescription "clock c:\noffset = 0\nlength = 4\nduty = 2" =
      Except.error (PErr.model ModelErr.clockDutyInvalid) ∧
    PErr.isSyntaxErr (PErr.model ModelErr.clockDutyInvalid) = false ∧
    parseTimingDescription "bus b:\nstart = foo" = Except.error PErr.literalEval ∧
    PErr.isSyntaxErr PErr.literalEval = false := by
  refine ⟨by decide, by decide, by decide, by decide⟩

/-- C1 witness: the amended discipline applied to the clock-duty input and
to the non-literal bus value input. -/
theorem claim1_witness :
    (parseTimingDescription "clock c:\noffset = 0\nlength = 4\nduty = 2" =
      Except.error (PErr.model ModelErr.clockDutyInvalid) ∧
    allowedErr (PErr.model ModelErr.clockDutyInvalid)) ∧
    (parseTimingDescription "bus b:\nstart = foo" = Except.error PErr.literalEval ∧
    allowedErr PErr.literalEval) :=
  ⟨⟨by decide, claim1_parse_error_discipline "clock c:\noffset = 0\nlength = 4\nduty = 2"
    (PErr.model ModelErr.clockDutyInvalid) (by decide)⟩,
   ⟨by decide, claim1_parse_error_discipline "bus b:\nstart = foo"
    PErr.literalEval (by decide)⟩⟩

/-! ### Claim C6: the step grid of _drawFrame -/

/-- Membership in Python range(0, stop, step) for a positive step: the
nonnegative multiples of step below stop. -/
theorem pyRange0_mem (stop s t : ℤ) (hs : 0 < s) :
    t ∈ pyRange0 stop s ↔ 0 ≤ t ∧ t < stop ∧ s ∣ t := by
  unfold pyRange0
  rw [if_pos hs]
  simp only [List.mem_map, List.mem_range]
  have hB : 0 < s.toNat := by omega
  have hsb : ((s.toNat : ℤ)) = s := Int.toNat_of_nonneg (le_of_lt hs)
  constructor
  · rintro ⟨k, hk, rfl⟩
    refine ⟨by positivity, ?_, dvd_mul_left s k⟩
    have h1 : k + 1 ≤ (stop + s - 1).toNat / s.toNat := hk
    have h2 : (k + 1) * s.toNat ≤ (stop + s - 1).toNat := (Nat.le_div_iff_mul_le hB).mp h1
    by_cases hx : 0 ≤ stop + s - 1
    · have h3 : (((k + 1) * s.toNat : ℕ) : ℤ) ≤ (((stop + s - 1).toNat : ℕ) : ℤ) :=
        Int.ofNat_le.mpr h2
      rw [Int.toNat_of_nonneg hx] at h3
      push_cast at h3
      rw [hsb] at h3
      nlinarith
    · push_neg at hx
      have h0 : (stop + s - 1).toNat = 0 := Int.toNat_of_nonpos (le_of_lt hx)
      rw [h0, Nat.le_zero] at h2
      have : s.toNat = 0 := by
        rcases Nat.mul_eq_zero.mp h2 with hc | hc
        · omega
        · exact hc
      omega
  · rintro ⟨ht0, hts, m, rfl⟩
    have hm0 : 0 ≤ m := by nlinarith
    have hmm : ((m.toNat : ℤ)) = m := Int.toNat_of_nonneg hm0
    have hx : 0 ≤ stop + s - 1 := by linarith
    refine ⟨m.toNat, ?_, ?_⟩
    · rw [Nat.lt_iff_add_one_le, Nat.le_div_iff_mul_le hB, ← Nat.cast_le (α := ℤ)]
      push_cast
      rw [hmm, hsb, Int.toNat_of_nonneg hx]
      nlinarith
    · rw [hmm]
      ring

/-- Filtering an enumeration by "index is not the last one" drops exactly
the last element (generalized over the starting index). -/
theorem enumFrom_filter_ne_last {α : Type} (l : List α) : ∀ (n m : ℕ), m = n + l.length - 1 →
    (List.enumFrom n l).filter (fun p => p.1 != m) = List.enumFrom n l.dropLast := by
  induction l with
  | nil =>
    intro n m _
    simp
  | cons a l ih =>
    intro n m hm
    cases l with
    | nil =>
      have hmn : m = n := by simpa using hm
      subst hmn
      simp [List.enumFrom]
    | cons b l2 =>
      have hkeep : (n != m) = true := by
        simp only [List.length_cons] at hm
        have : n ≠ m := by omega
        simpa using this
      have step1 : List.enumFrom n (a :: b :: l2) = (n, a) :: List.enumFrom (n + 1) (b :: l2) := rfl
      rw [step1, List.filter_cons_of_pos]
      · rw [ih (n + 1) m (by simp only [List.length_cons] at hm ⊢; omega)]
        rfl
      · exact hkeep

/-- The enum version: filtering out the last index is dropLast. -/
theorem enum_filter_ne_last {α : Type} (l : List α) :
    l.enum.filter (fun p => p.1 != l.length - 1) = l.dropLast.enum := by
  have h := enumFrom_filter_ne_last l 0 (l.length - 1) (by omega)
  simpa [List.enum] using h

/-- C6 counterexample: with start = -10, end = 10, step = 5, the time -5
is a multiple of step lying between start and end, yet the renderer draws
no dashed rule at it (neither its time nor its pixel position occurs among
the stops, which enumerate range(0, end, step) from 0, not from start). -/
theorem claim6_counterexample :
    gridStopTimes ⟨800, 600, 20, 12, "Times New Roman", 0xffffff, 0x000000, -10, 10, some 5, 10, []⟩ = [0, 5] ∧
    (-10 : ℤ) ≤ -5 ∧ (-5 : ℤ) ≤ 10 ∧ (-5 : ℤ) % 5 = 0 ∧
    ((-5 : ℤ) ∉ gridStopTimes ⟨800, 600, 20, 12, "Times New Roman", 0xffffff, 0x000000, -10, 10, some 5, 10, []⟩) ∧
    (timeToPixels ⟨800, 600, 20, 12, "Times New Roman", 0xffffff, 0x000000, -10, 10, some 5, 10, []⟩ 0 100 (intQ (-5)) ∉
      gridStopsPixels ⟨800, 600, 20, 12, "Times New Roman", 0xffffff, 0x000000, -10, 10, some 5, 10, []⟩ 0 100) := by
  refine ⟨by decide, by decide, by decide, by decide, by decide, by decide⟩

/-- C6 amended: when step is set (nonzero, positive), the dashed vertical
rules stand exactly at the nonnegative multiples of step strictly below
end - counting from 0, not from start, and excluding end - each mapped
through the time→pixel mapping; the column labels T1, T2, ... are placed
for every rule except the last, half a step to the right of their rule. -/
theorem claim6_grid (d : TimingDiagram) (s : ℤ) (innerLeft innerWidth : ℚ)
    (hs : d.step = some s) (hpos : 0 < s) :
    (∀ t : ℤ, t ∈ gridStopTimes d ↔ 0 ≤ t ∧ t < d.endT ∧ s ∣ t) ∧
    gridStopsPixels d innerLeft innerWidth =
      (gridStopTimes d).map (fun t => timeToPixels d innerLeft innerWidth (intQ t)) ∧
    gridLabels d innerLeft innerWidth =
      (gridStopsPixels d innerLeft innerWidth).dropLast.enum.map
        (fun p => (p.1 + 1, qadd p.2 (qdiv (pixelsPerStep d innerWidth) 2))) := by
  refine ⟨?_, rfl, ?_⟩
  · intro t
    have hgd : gridStopTimes d = pyRange0 d.endT s := by
      unfold gridStopTimes
      rw [hs]
      show (if s = 0 then [] else pyRange0 d.endT s) = pyRange0 d.endT s
      rw [if_neg (by omega : ¬ s = 0)]
    rw [hgd]
    exact pyRange0_mem d.endT s t hpos
  · show ((gridStopsPixels d innerLeft innerWidth).enum.filter
        (fun p => p.1 != (gridStopsPixels d innerLeft innerWidth).length - 1)).map
        (fun p => (p.1 + 1, qadd p.2 (qdiv (pixelsPerStep d innerWidth) 2))) = _
    rw [enum_filter_ne_last]

/-- C6 witness: the grid characterization for a diagram with start 0,
end 20, step 5 and a 100-pixel inner frame starting at x = 0. -/
theorem claim6_witness :
    ((∀ t : ℤ, t ∈ gridStopTimes ⟨800, 600, 20, 12, "Times New Roman", 0xffffff, 0x000000, 0, 20, some 5, 10, []⟩ ↔
        0 ≤ t ∧ t < (20 : ℤ) ∧ (5 : ℤ) ∣ t) ∧
      gridStopsPixels ⟨800, 600, 20, 12, "Times New Roman", 0xffffff, 0x000000, 0, 20, some 5, 10, []⟩ 0 100 =
        (gridStopTimes ⟨800, 600, 20, 12, "Times New Roman", 0xffffff, 0x000000, 0, 20, some 5, 10, []⟩).map
          (fun t => timeToPixels ⟨800, 600, 20, 12, "Times New Roman", 0xffffff, 0x000000, 0, 20, some 5, 10, []⟩ 0 100 (intQ t)) ∧
      gridLabels ⟨800, 600, 20, 12, "Times New Roman", 0xffffff, 0x000000, 0, 20, some 5, 10, []⟩ 0 100 =
        (gridStopsPixels ⟨800, 600, 20, 12, "Times New Roman", 0xffffff, 0x000000, 0, 20, some 5, 10, []⟩ 0 100).dropLast.enum.map
          (fun p => (p.1 + 1, qadd p.2 (qdiv (pixelsPerStep ⟨800, 600, 20, 12, "Times New Roman", 0xffffff, 0x000000, 0, 20, some 5, 10, []⟩ 100) 2)))) ∧
    gridStopTimes ⟨800, 600, 20, 12, "Times New Roman", 0xffffff, 0x000000, 0, 20, some 5, 10, []⟩ = [0, 5, 10, 15] :=
  ⟨claim6_grid ⟨800, 600, 20, 12, "Times New Roman", 0xffffff, 0x000000, 0, 20, some 5, 10, []⟩ 5 0 100 rfl (by decide),
    by decide⟩

/-! ### Claim C4: clock-to-line expansion -/

theorem pyceil_eq (q : ℚ) : pyceil q = ⌈q⌉ := by
  rw [pyceil, pyfloor_eq, qneg_eq, Int.floor_neg, neg_neg]

theorem pyfmod_bounds (a b : ℚ) (hb : 0 < b) : 0 ≤ pyfmod a b ∧ pyfmod a b < b := by
  have hb0 : b ≠ 0 := ne_of_gt hb
  have hkey : pyfmod a b = b * Int.fract (a / b) := by
    rw [pyfmod, qsub_eq, qmul_eq, intQ_eq, pyfloor_eq, qdiv_eq]
    have : Int.fract (a / b) = a / b - ⌊a / b⌋ := rfl
    rw [this]
    field_simp
  rw [hkey]
  constructor
  · exact mul_nonneg hb.le (Int.fract_nonneg _)
  · have h := mul_lt_mul_of_pos_left (Int.fract_lt_one (a / b)) hb
    linarith

theorem clockPhase_bounds (c : Clock) (hl : 0 < c.length) :
    -c.length < clockPhase c ∧ clockPhase c ≤ 0 := by
  obtain ⟨h0, h1⟩ := pyfmod_bounds (qneg c.offset) c.length hl
  rw [clockPhase, qneg_eq]
  constructor
  · linarith
  · linarith

theorem clockFuel_sufficient (t0 endT m : ℚ) (hm : 0 < m) :
    endT ≤ t0 + (clockFuel t0 endT m : ℚ) * m := by
  rw [clockFuel]
  rw [show pyceil (qdiv (qsub endT t0) m) = ⌈(endT - t0) / m⌉ by rw [qsub_eq, qdiv_eq, pyceil_eq]]
  have h1 : (endT - t0) / m ≤ ((⌈(endT - t0) / m⌉ : ℤ) : ℚ) := Int.le_ceil _
  have h2 : ((⌈(endT - t0) / m⌉ : ℤ) : ℚ) ≤ ((⌈(endT - t0) / m⌉.toNat : ℤ) : ℚ) := by
    exact_mod_cast Int.self_le_toNat _
  have h3 : (endT - t0) / m ≤ (⌈(endT - t0) / m⌉.toNat : ℚ) + 2 := by
    push_cast at h2
    linarith
  have h4 : endT - t0 ≤ ((⌈(endT - t0) / m⌉.toNat : ℚ) + 2) * m := by
    rw [div_le_iff₀ hm] at h3
    exact h3
  push_cast
  linarith

theorem clockLoop_run (startT endT t0 onL offL : ℚ)
    (hon : 0 < onL) (hoff : 0 < offL) (hse : startT < endT) (ht0 : t0 < endT) :
    ∀ (fuel : ℕ) (st : ClockState),
      clockInv startT endT t0 onL offL st →
      endT ≤ st.time + fuel * min onL offL →
      ∃ st2, clockLoop startT endT onL offL fuel st = some st2 ∧
        clockInv startT endT t0 onL offL st2 ∧ endT ≤ st2.time := by
  intro fuel
  induction fuel with
  | zero =>
    intro st hinv hfuel
    rw [Nat.cast_zero, zero_mul, add_zero] at hfuel
    have hloop : clockLoop startT endT onL offL 0 st = some st := by
      simp only [clockLoop]
      rw [if_neg (not_lt.mpr hfuel)]
    exact ⟨st, hloop, hinv, hfuel⟩
  | succ f ih =>
    intro st hinv hfuel
    by_cases hlt : st.time < endT
    · have hstep_pos : 0 < (if st.active then onL else offL) := by
        by_cases hac : st.active
        · rw [if_pos hac]; exact hon
        · rw [if_neg hac]; exact hoff
      have hmin_le : min onL offL ≤ (if st.active then onL else offL) := by
        by_cases hac : st.active
        · rw [if_pos hac]; exact min_le_left _ _
        · rw [if_neg hac]; exact min_le_right _ _
      have htq : qadd st.time (if st.active then onL else offL) =
          st.time + (if st.active then onL else offL) := qadd_eq _ _
      have htmore : st.time < qadd st.time (if st.active then onL else offL) := by
        rw [htq]; linarith
      have hfuel2 : endT ≤ qadd st.time (if st.active then onL else offL) + f * min onL offL := by
        rw [htq]
        have hc : ((f + 1 : ℕ) : ℚ) * min onL offL = f * min onL offL + min onL offL := by
          push_cast
          ring
        rw [hc] at hfuel
        linarith
      obtain ⟨h1, h2, h3, h4, h5, h6, h7⟩ := hinv
      by_cases hps : qadd st.time (if st.active then onL else offL) ≤ startT
      · have hempty : st.changes = [] := by
          cases hgl : st.changes.getLast? with
          | none => exact List.getLast?_eq_none_iff.mp hgl
          | some q =>
            have hne2 : st.changes ≠ [] := by
              intro hc
              rw [hc] at hgl
              cases hgl
            have hq : q = (st.time, if st.active then (1 : ℤ) else 0) := h6 q hgl
            have hqm : q ∈ st.changes := by
              have hgq := List.getLast?_eq_getLast st.changes hne2
              rw [hgq] at hgl
              cases hgl
              exact List.getLast_mem hne2
            have hq1 := (h2 q hqm).1
            rw [hq] at hq1
            exact absurd hps (by push_neg; linarith)
        have hloop : clockLoop startT endT onL offL (f + 1) st =
            clockLoop startT endT onL offL f
              ⟨qadd st.time (if st.active then onL else offL), !st.active,
                if !st.active then 1 else 0, st.changes⟩ := by
          simp only [clockLoop]
          rw [if_pos hlt, if_pos hps]
        rw [hloop]
        apply ih
        · rw [hempty]
          refine ⟨List.chain'_nil, ?_, ?_, ?_, ?_, ?_, ?_⟩
          · intro p hp
            simp at hp
          · intro p hp
            simp at hp
          · by_cases hac : st.active
            · exact Or.inl (by simp [hac])
            · exact Or.inr (by simp [hac])
          · intro _
            exact ⟨rfl, Or.inl hps⟩
          · intro p hp
            cases hp
          · intro p hp
            cases hp
        · exact hfuel2
      · push_neg at hps
        have hall : ∀ p ∈ st.changes, p.1 < endT := by
          intro p hp
          cases hgl : st.changes.getLast? with
          | none =>
            rw [List.getLast?_eq_none_iff.mp hgl] at hp
            simp at hp
          | some q =>
            have hne2 : st.changes ≠ [] := by
              intro hc
              rw [hc] at hgl
              cases hgl
            have hgq := List.getLast?_eq_getLast st.changes hne2
            rw [hgq] at hgl
            have hsplit := List.dropLast_append_getLast hne2
            rw [← hsplit] at hp
            rcases List.mem_append.mp hp with hp | hp
            · exact h3 p hp
            · simp only [List.mem_singleton] at hp
              subst hp
              have hq := h6 _ hgq
              rw [hq]
              exact hlt
        have hloop : clockLoop startT endT onL offL (f + 1) st =
            clockLoop startT endT onL offL f
              ⟨qadd st.time (if st.active then onL else offL), !st.active, st.startVal,
                st.changes ++ [(qadd st.time (if st.active then onL else offL),
                  if !st.active then 1 else 0)]⟩ := by
          simp only [clockLoop]
          rw [if_pos hlt, if_neg (not_le.mpr hps)]
        rw [hloop]
        apply ih
        · refine ⟨?_, ?_, ?_, h4, ?_, ?_, ?_⟩
          · rw [List.chain'_append]
            refine ⟨h1, List.chain'_singleton _, ?_⟩
            intro x hx y hy
            rw [Option.mem_def] at hx hy
            have hxq := h6 x hx
            simp only [List.head?_cons, Option.some.injEq] at hy
            subst hy
            rw [hxq]
            constructor
            · by_cases hac : st.active <;> simp [hac]
            · by_cases hac : st.active <;> simp [hac]
          · intro p hp
            rcases List.mem_append.mp hp with hp | hp
            · exact h2 p hp
            · simp only [List.mem_singleton] at hp
              subst hp
              constructor
              · exact hps
              · by_cases hac : st.active <;> simp [hac]
          · rw [List.dropLast_concat]
            exact hall
          · intro hc
            simp at hc
          · intro p hp
            rw [List.getLast?_concat] at hp
            simp only [Option.some.injEq] at hp
            subst hp
            rfl
          · intro p hp
            cases hcc : st.changes with
            | nil =>
              rw [hcc] at hp
              simp only [List.nil_append, List.head?_cons, Option.some.injEq] at hp
              subst hp
              have h5c := (h5 hcc).1
              show (if !st.active then (1 : ℤ) else 0) = 1 - st.startVal
              rw [h5c]
              by_cases hac : st.active <;> simp [hac]
            | cons q rest =>
              rw [hcc] at hp
              simp only [List.cons_append, List.head?_cons, Option.some.injEq] at hp
              subst hp
              exact h7 q (by rw [hcc]; rfl)
        · exact hfuel2
    · have hloop : clockLoop startT endT onL offL (f + 1) st = some st := by
        simp only [clockLoop]
        rw [if_neg hlt]
      exact ⟨st, hloop, hinv, not_lt.mp hlt⟩

/-- C4: for a valid clock (positive length, duty strictly inside (0, 1))
over a window with start < end and 0 < end, the clock-to-line expansion
terminates and produces the synthetic line of the source loop: starting
from the 0-aligned phase time, the recorded changes alternate between 0
and 1 with the gap after a rise equal to duty*length (the high run) and
the gap after a fall equal to (1-duty)*length (the low run); every change
lies strictly after start; pre-start alternations only set the line start
value (a bit, flipped by the first change); the one change generated at or
beyond end is discarded by popitem, so the drawn changes all lie strictly
before end. -/
theorem claim4_clock_expansion (d : TimingDiagram) (c : Clock)
    (hl : 0 < c.length) (hd0 : 0 < c.duty) (hd1 : c.duty < 1)
    (hse : d.startT < d.endT) (hend : 0 < d.endT) :
    onLength c = c.duty * c.length ∧
    offLength c = (1 - c.duty) * c.length ∧
    ∃ st, clockRun d c = some st ∧ st.changes ≠ [] ∧
      clockToLine d c = some ⟨c.name, PyVal.int st.startVal,
        (st.changes.dropLast).map (fun p => (p.1, PyVal.int p.2))⟩ ∧
      (st.startVal = 0 ∨ st.startVal = 1) ∧
      List.Chain' (clockStepRel (onLength c) (offLength c)) st.changes ∧
      (∀ p q : ℚ × ℤ, clockStepRel (onLength c) (offLength c) p q ↔
        (q.2 = 1 - p.2 ∧
          q.1 = p.1 + (if p.2 = 1 then c.duty * c.length else (1 - c.duty) * c.length))) ∧
      (∀ p ∈ st.changes, ((d.startT : ℚ)) < p.1 ∧ (p.2 = 0 ∨ p.2 = 1)) ∧
      (∀ p ∈ st.changes.dropLast, p.1 < ((d.endT : ℚ))) ∧
      (∀ p, st.changes.head? = some p → p.2 = 1 - st.startVal) ∧
      (∀ p, st.changes.getLast? = some p → ((d.endT : ℚ)) ≤ p.1) := by
  have hone : onLength c = c.duty * c.length := by rw [onLength, qmul_eq]
  have hoffe : offLength c = (1 - c.duty) * c.length := by
    rw [offLength, qsub_eq, onLength, qmul_eq]
    ring
  have hon : 0 < onLength c := by
    rw [hone]
    positivity
  have hoff : 0 < offLength c := by
    rw [hoffe]
    nlinarith
  have hm : 0 < min (onLength c) (offLength c) := lt_min hon hoff
  have hphase := clockPhase_bounds c hl
  have hseQ : intQ d.startT < intQ d.endT := by
    rw [intQ_eq, intQ_eq]
    exact_mod_cast hse
  have hendQ : (0 : ℚ) < intQ d.endT := by
    rw [intQ_eq]
    exact_mod_cast hend
  have ht0 : clockPhase c < intQ d.endT := lt_of_le_of_lt hphase.2 hendQ
  have hinv0 : clockInv (intQ d.startT) (intQ d.endT) (clockPhase c) (onLength c) (offLength c)
      ⟨clockPhase c, false, 0, []⟩ := by
    refine ⟨List.chain'_nil, ?_, ?_, Or.inl rfl, ?_, ?_, ?_⟩
    · intro p hp
      cases hp
    · intro p hp
      cases hp
    · intro _
      exact ⟨rfl, Or.inr rfl⟩
    · intro p hp
      cases hp
    · intro p hp
      cases hp
  obtain ⟨st, hrun0, hinv, hexit⟩ := clockLoop_run (intQ d.startT) (intQ d.endT) (clockPhase c)
    (onLength c) (offLength c) hon hoff hseQ ht0
    (clockFuel (clockPhase c) (intQ d.endT) (min (onLength c) (offLength c)))
    ⟨clockPhase c, false, 0, []⟩ hinv0
    (clockFuel_sufficient (clockPhase c) (intQ d.endT) (min (onLength c) (offLength c)) hm)
  have hrun : clockRun d c = some st := hrun0
  have hne : st.changes ≠ [] := by
    intro hnil
    rcases (hinv.2.2.2.2.1 hnil).2 with hc | hc
    · exact absurd hseQ (not_lt.mpr (le_trans hexit hc))
    · rw [hc] at hexit
      exact absurd hexit (not_le.mpr ht0)
  have hctl : clockToLine d c = some ⟨c.name, PyVal.int st.startVal,
      (st.changes.dropLast).map (fun p => (p.1, PyVal.int p.2))⟩ := by
    unfold clockToLine
    rw [hrun]
    show (if st.changes.isEmpty then Option.none else
      some (Line.mk c.name (PyVal.int st.startVal)
        ((st.changes.dropLast).map (fun p => (p.1, PyVal.int p.2))))) =
      some (Line.mk c.name (PyVal.int st.startVal)
        ((st.changes.dropLast).map (fun p => (p.1, PyVal.int p.2))))
    rw [if_neg (by simpa using hne)]
  refine ⟨hone, hoffe, st, hrun, hne, hctl, hinv.2.2.2.1, hinv.1, ?_, ?_, ?_,
    hinv.2.2.2.2.2.2, ?_⟩
  · intro p q
    rw [clockStepRel, qadd_eq, hone, hoffe]
  · intro p hp
    have h := hinv.2.1 p hp
    rw [intQ_eq] at h
    exact h
  · intro p hp
    have h := hinv.2.2.1 p hp
    rw [intQ_eq] at h
    exact h
  · intro p hp
    have h6 := hinv.2.2.2.2.2.1 p hp
    rw [h6]
    rw [intQ_eq] at hexit
    exact hexit

/-- C4 witness: the clock with offset 0, length 4, duty 1/2 over start 0,
end 10 satisfies the hypotheses, and its expansion is concretely the line
starting at 0 with changes (2,1), (4,0), (6,1), (8,0) - 0/1 alternation
every 2 time units. -/
theorem claim4_witness :
    ((0 : ℚ) < 4 ∧ (0 : ℚ) < qdiv 1 2 ∧ qdiv 1 2 < 1 ∧ (0 : ℤ) < 10) ∧
    (onLength ⟨"c", 0, 4, qdiv 1 2⟩ = (qdiv 1 2) * 4 ∧
      offLength ⟨"c", 0, 4, qdiv 1 2⟩ = (1 - qdiv 1 2) * 4 ∧
      ∃ st, clockRun ⟨800, 600, 20, 12, "Times New Roman", 0xffffff, 0x000000, 0, 10, Option.none, 10, []⟩ ⟨"c", 0, 4, qdiv 1 2⟩ = some st ∧
        st.changes ≠ [] ∧
        clockToLine ⟨800, 600, 20, 12, "Times New Roman", 0xffffff, 0x000000, 0, 10, Option.none, 10, []⟩ ⟨"c", 0, 4, qdiv 1 2⟩ =
          some ⟨"c", PyVal.int st.startVal, (st.changes.dropLast).map (fun p => (p.1, PyVal.int p.2))⟩ ∧
        (st.startVal = 0 ∨ st.startVal = 1) ∧
        List.Chain' (clockStepRel (onLength ⟨"c", 0, 4, qdiv 1 2⟩) (offLength ⟨"c", 0, 4, qdiv 1 2⟩)) st.changes ∧
        (∀ p q : ℚ × ℤ, clockStepRel (onLength ⟨"c", 0, 4, qdiv 1 2⟩) (offLength ⟨"c", 0, 4, qdiv 1 2⟩) p q ↔
          (q.2 = 1 - p.2 ∧ q.1 = p.1 + (if p.2 = 1 then (qdiv 1 2) * 4 else (1 - qdiv 1 2) * 4))) ∧
        (∀ p ∈ st.changes, (((0 : ℤ) : ℚ)) < p.1 ∧ (p.2 = 0 ∨ p.2 = 1)) ∧
        (∀ p ∈ st.changes.dropLast, p.1 < (((10 : ℤ) : ℚ))) ∧
        (∀ p, st.changes.head? = some p → p.2 = 1 - st.startVal) ∧
        (∀ p, st.changes.getLast? = some p → (((10 : ℤ) : ℚ)) ≤ p.1)) ∧
    clockToLine ⟨800, 600, 20, 12, "Times New Roman", 0xffffff, 0x000000, 0, 10, Option.none, 10, []⟩ ⟨"c", 0, 4, qdiv 1 2⟩ =
      some ⟨"c", PyVal.int 0, [(2, PyVal.int 1), (4, PyVal.int 0), (6, PyVal.int 1), (8, PyVal.int 0)]⟩ :=
  ⟨⟨by decide, by decide, by decide, by decide⟩,
    claim4_clock_expansion ⟨800, 600, 20, 12, "Times New Roman", 0xffffff, 0x000000, 0, 10, Option.none, 10, []⟩
      ⟨"c", 0, 4, qdiv 1 2⟩ (by decide) (by decide) (by decide) (by decide) (by decide),
    by decide⟩

end Drawtime